import Mathlib

/-!
Layered renderer and collision engine of handBall.c.

Shallow embedding of `src/gameDemo/handBall.c`.

Conventions of the embedding.

* C `int` values (coordinates, velocities, the counters `s` and `gameOver`) are
  modelled on `Int`: the model computes the exact results.  An `int` of the
  compiled program holds `intValue` of the exact result, which is the exact result
  as long as it stays within the range of `int`; this range is made explicit where
  a claim depends on it (the growth of `s`).
* A pointer to a `Layer` is a `LayerId`; the memory holding all `Layer` objects is
  a total map `LayerId → Layer`.  Two moving layers may point to the same layer.
* A null-terminated linked list is the Lean list of its nodes in link order: the
  layer list handed to `movLayerDraw` is the list of the pointers to its nodes
  (`IsLayerList` relates it to the `next` pointers kept in the memory), the
  moving-layer list is the list of its `MovLayer` nodes, whose `next` fields are
  the list structure.
* The static `count` of the interrupt handler, the fence `fieldFence` and the nodes
  of the moving-layer list are kept with the globals in `Game`.
* Calls into the display and the status register are recorded as a list of `Ev`.
* The shape library (`shape.h`, `abCircle.h`) is not part of the source file.  A
  shape is the pair of its two capabilities, as in the C structs whose first two
  members are the function pointers `getBounds` and `check`.
-/

namespace HandBall

/-! ## Data model -/

/-- Vector of two `int` axes (`Vec2` of the shape library): axis 0 is `x`, axis 1 is `y`. -/
structure Vec2 where
  x : Int
  y : Int
deriving DecidableEq

/-- Read `v.axes[axis]`. -/
def Vec2.axes (v : Vec2) (axis : Fin 2) : Int :=
  if axis = 0 then v.x else v.y

/-- Write `v.axes[axis] = val`. -/
def Vec2.setAxis (v : Vec2) (axis : Fin 2) (val : Int) : Vec2 :=
  if axis = 0 then { v with x := val } else { v with y := val }

/-- Rectangle given by its top-left and bottom-right points (`Region`). -/
structure Region where
  topLeft : Vec2
  botRight : Vec2
deriving DecidableEq

/-- Shape capability set: the two function pointers of an `AbShape`.  The position
is supplied at query time; `check` answers whether a pixel lies inside the shape
centred at the given position. -/
structure AbShape where
  getBounds : Vec2 → Region
  check : Vec2 → Vec2 → Bool

abbrev Color := Nat

abbrev LayerId := Nat

/-- The `Layer` struct.  `next` is the pointer to the next node of the layer list, `none`
for the null pointer. -/
structure Layer where
  abShape : AbShape
  pos : Vec2
  posLast : Vec2
  posNext : Vec2
  color : Color
  next : Option LayerId

/-- The `MovLayer` struct (lines 62-66); its `next` member is the order of the list. -/
structure MovLayer where
  layer : LayerId
  velocity : Vec2
deriving DecidableEq

/-- The global variables of the program that the two engines read or write. -/
structure World where
  heap : LayerId → Layer
  s : Int
  gameOver : Int
  p1out : Nat
  bgColor : Color
  redrawScreen : Int

/-- Observable calls, in program order. -/
inductive Ev where
  | andSr (mask : Int)
  | orSr (bits : Int)
  | lcdSetArea (colStart rowStart colEnd rowEnd : Int)
  | lcdWriteColor (color : Color)
deriving DecidableEq

/-! ## Shape library -/

/-- Modelled from the spec: `vec2Add` of the shape library, integer vector addition. -/
def vec2Add (a b : Vec2) : Vec2 :=
  { x := a.x + b.x, y := a.y + b.y }

/-- Modelled from the spec: `vec2Sub` of the shape library, integer vector subtraction. -/
def vec2Sub (a b : Vec2) : Vec2 :=
  { x := a.x - b.x, y := a.y - b.y }

/-- Modelled from the spec: `abShapeGetBounds` of the shape library, dispatch to the
shape capability that yields the bounding region at a centre position. -/
def abShapeGetBounds (shape : AbShape) (centerPos : Vec2) : Region :=
  shape.getBounds centerPos

/-- Modelled from the spec: `abShapeCheck` of the shape library, dispatch to the shape
capability that answers whether `pixel` lies inside the shape centred at `centerPos`. -/
def abShapeCheck (shape : AbShape) (centerPos pixel : Vec2) : Bool :=
  shape.check centerPos pixel

/-- Modelled from the spec: `abRectGetBounds` of the shape library, a rectangle given by
half-width and half-height has the bounding region centre minus and plus half size. -/
def abRectGetBounds (halfSize centerPos : Vec2) : Region :=
  { topLeft := vec2Sub centerPos halfSize, botRight := vec2Add centerPos halfSize }

/-- Modelled from the spec: `abRectCheck` of the shape library, the pixel is inside when it
is within the (inclusive) bounds on both axes. -/
def abRectCheck (halfSize centerPos pixel : Vec2) : Bool :=
  let bounds := abRectGetBounds halfSize centerPos
  decide (bounds.topLeft.x ≤ pixel.x ∧ pixel.x ≤ bounds.botRight.x ∧
          bounds.topLeft.y ≤ pixel.y ∧ pixel.y ≤ bounds.botRight.y)

/-- An `AbRect` seen as a shape: `{abRectGetBounds, abRectCheck, halfSize}`. -/
def abRect (halfSize : Vec2) : AbShape :=
  { getBounds := abRectGetBounds halfSize, check := abRectCheck halfSize }

/-- Modelled from the spec: `regionUnion` of the shape library, the smallest region
holding both arguments. -/
def regionUnion (r1 r2 : Region) : Region :=
  { topLeft := { x := min r1.topLeft.x r2.topLeft.x, y := min r1.topLeft.y r2.topLeft.y },
    botRight := { x := max r1.botRight.x r2.botRight.x, y := max r1.botRight.y r2.botRight.y } }

/-- Modelled from the spec: `layerGetBounds` of the shape library, the dirty region of a
layer is the union of its bounds at `pos` and at `posLast`. -/
def layerGetBounds (l : Layer) : Region :=
  regionUnion (abShapeGetBounds l.abShape l.pos) (abShapeGetBounds l.abShape l.posLast)

/-! ## Globals of handBall.c -/

/-- Line 18: `GREEN_LED` is `BIT6`. -/
def GREEN_LED : Nat := 64

/-- Line 21: `rect10`, the 3x20 rectangle of the paddle. -/
def rect10 : AbShape := abRect { x := 3, y := 20 }

/-- Address of the global `layer0` (the ball), head of the layer list. -/
def layer0 : LayerId := 0

/-- Address of the global `layer1` (the paddle). -/
def layer1 : LayerId := 1

/-- Address of the global `fieldLayer`. -/
def fieldLayer : LayerId := 2

/-- Address of the global `wall`. -/
def wall : LayerId := 3

/-! ## movLayerDraw (lines 72-107) -/

/-- Lines 78-82: the commit loop. -/
def commitLoop (heap : LayerId → Layer) : List MovLayer → (LayerId → Layer)
  | [] => heap
  | movLayer :: rest =>
      let l := movLayer.layer
      let heap1 := Function.update heap l { heap l with posLast := (heap l).pos }
      let heap2 := Function.update heap1 l { heap1 l with pos := (heap1 l).posNext }
      commitLoop heap2 rest

/-- Lines 94-102: probe all layers in order, stop at the first whose shape holds the pixel. -/
def probeLayers (heap : LayerId → Layer) (bgColor : Color) (pixelPos : Vec2) :
    List LayerId → Color
  | [] => bgColor
  | probeLayer :: rest =>
      if abShapeCheck (heap probeLayer).abShape (heap probeLayer).pos pixelPos then
        (heap probeLayer).color
      else
        probeLayers heap bgColor pixelPos rest

/-- The values `lo, lo+1, ...` taken by a loop variable over `n` iterations. -/
def countUp (lo : Int) : Nat → List Int
  | 0 => []
  | n + 1 => lo :: countUp (lo + 1) n

/-- Values of `v` in `for (v = lo; v <= hi; v++)`. -/
def forLoop (lo hi : Int) : List Int :=
  countUp lo (hi + 1 - lo).toNat

/-- Lines 91-105: the row and column loops, one `lcd_writeColor` per pixel. -/
def drawPixels (w : World) (layers : List LayerId) (bounds : Region) : List Ev :=
  (forLoop bounds.topLeft.y bounds.botRight.y).flatMap fun row =>
    (forLoop bounds.topLeft.x bounds.botRight.x).map fun col =>
      Ev.lcdWriteColor (probeLayers w.heap w.bgColor { x := col, y := row } layers)

/-- Lines 87-105: body of the second loop, for one moving layer. -/
def drawLayer (w : World) (layers : List LayerId) (movLayer : MovLayer) : List Ev :=
  let bounds := layerGetBounds (w.heap movLayer.layer)
  Ev.lcdSetArea bounds.topLeft.x bounds.topLeft.y bounds.botRight.x bounds.botRight.y
    :: drawPixels w layers bounds

/-- Lines 86-106: the drawing loop over the moving layers. -/
def drawLoop (w : World) (layers : List LayerId) : List MovLayer → List Ev
  | [] => []
  | movLayer :: rest => drawLayer w layers movLayer ++ drawLoop w layers rest

/-- Lines 72-107: `movLayerDraw(movLayers, layers)`. -/
def movLayerDraw (w : World) (movLayers : List MovLayer) (layers : List LayerId) :
    World × List Ev :=
  let w1 := { w with heap := commitLoop w.heap movLayers }
  (w1, Ev.andSr (-9) :: Ev.orSr 8 :: drawLoop w1 layers movLayers)

/-! ## mlAdvance (lines 118-146) -/

/-- Lines 136-140: the busy-wait pulse on the green LED, 249 rounds of
`P1OUT |= GREEN_LED`, then `P1OUT &= ~GREEN_LED` on the 8-bit port. -/
def ledPulse (p1out : Nat) : Nat :=
  (Nat.iterate (fun p => p ||| GREEN_LED) 249 p1out) &&& (255 - GREEN_LED)

/-- Variables live in the axis loop: the globals, `ml->velocity` and the local `newPos`. -/
structure AxisState where
  w : World
  velocity : Vec2
  newPos : Vec2

/-- Lines 127-142: body of the axis loop. -/
def axisBody (fence shapeBoundary : Region) (axis : Fin 2) (st : AxisState) : AxisState :=
  if (decide (shapeBoundary.topLeft.axes axis < fence.topLeft.axes axis) ||
      decide (shapeBoundary.botRight.axes axis > fence.botRight.axes axis) ||
      (abShapeCheck rect10 (st.w.heap layer1).pos (st.w.heap layer0).pos == true)) = true then
    let velocity := - st.velocity.axes axis
    let st1 := { st with velocity := st.velocity.setAxis axis velocity }
    let st2 := { st1 with newPos := st1.newPos.setAxis axis (st1.newPos.axes axis + 2 * velocity) }
    let st3 :=
      if shapeBoundary.topLeft.axes 0 < fence.topLeft.axes axis then
        { st2 with w := { st2.w with gameOver := st2.w.gameOver + 1 } }
      else st2
    if shapeBoundary.botRight.axes axis > fence.botRight.axes 0 ∧
        ¬ (shapeBoundary.botRight.axes axis > fence.botRight.axes 1) then
      { st3 with w := { st3.w with s := st3.w.s + 1, p1out := ledPulse st3.w.p1out } }
    else st3
  else st

/-- Lines 124-144: body of the loop over the moving layers, for one moving layer.
Returns the globals and the node with its updated velocity. -/
def advanceLayer (w : World) (fence : Region) (ml : MovLayer) : World × MovLayer :=
  let newPos := vec2Add (w.heap ml.layer).posNext ml.velocity
  let shapeBoundary := abShapeGetBounds (w.heap ml.layer).abShape newPos
  let st0 : AxisState := { w := w, velocity := ml.velocity, newPos := newPos }
  let st := axisBody fence shapeBoundary 1 (axisBody fence shapeBoundary 0 st0)
  ({ st.w with
      heap := Function.update st.w.heap ml.layer { st.w.heap ml.layer with posNext := st.newPos } },
   { ml with velocity := st.velocity })

/-- Lines 118-146: `mlAdvance(ml, fence)`.  Returns the globals and the list with the
updated velocities. -/
def mlAdvance (w : World) : List MovLayer → Region → World × List MovLayer
  | [], _ => (w, [])
  | ml :: rest, fence =>
      let r := advanceLayer w fence ml
      let r2 := mlAdvance r.1 rest fence
      (r2.1, r.2 :: r2.2)

/-! ## Terminal check of the main loop (lines 227-234) -/

/-- States of the game as seen by the main loop. -/
inductive GameStatus where
  | Running
  | Lost
  | Won
deriving DecidableEq

/-- Lines 227-234: the two tests made after each redraw; `Lost` and `Won` draw the
banner and break out of the loop, `Running` goes on with the next round. -/
def terminalCheck (w : World) : GameStatus :=
  if w.gameOver = 1 then GameStatus.Lost
  else if w.s = 10 then GameStatus.Won
  else GameStatus.Running

/-! ## movePaddle and changeState (lines 154-182) -/

/-- Lines 170-182: `changeState(lastPos, state)`.  `ml1.layer` is the address of `layer1`
(line 69) and is never assigned. -/
def changeState (w : World) (lastPos : Vec2) (state : Int) : World :=
  if state = 0 then
    let heap1 := Function.update w.heap layer1
      { w.heap layer1 with
        posNext := (w.heap layer1).posNext.setAxis 1 ((w.heap layer1).posNext.axes 1 + 5) }
    let heap2 := Function.update heap1 layer1 { heap1 layer1 with posLast := lastPos }
    { w with heap := heap2 }
  else if state = 1 then
    let heap1 := Function.update w.heap layer1
      { w.heap layer1 with
        posNext := (w.heap layer1).posNext.setAxis 1 ((w.heap layer1).posNext.axes 1 - 5) }
    let heap2 := Function.update heap1 layer1 { heap1 layer1 with posLast := lastPos }
    { w with heap := heap2 }
  else w

/-- Lines 154-168: `movePaddle(switches)`.  The rectangle handed to `abRectCheck` is
`rect10`, of half size (3,20). -/
def movePaddle (w : World) (switches : Nat) : World :=
  let lastPos := (w.heap layer1).posNext
  let v : Vec2 := { x := 15, y := 11 }
  let v2 : Vec2 := { x := 15, y := 149 }
  let w1 :=
    if switches &&& (1 <<< 3) = 0 then
      if abRectCheck { x := 3, y := 20 } lastPos v2 = false then changeState w lastPos 0
      else w
    else w
  if switches &&& (1 <<< 0) = 0 then
    if abRectCheck { x := 3, y := 20 } lastPos v = false then changeState w1 lastPos 1
    else w1
  else w1

/-! ## wdt_c_handler (lines 239-250) -/

/-- The globals together with the nodes of the moving-layer list that starts at `ml0`, the
fence `fieldFence` and the static `count` of the interrupt handler. -/
structure Game where
  w : World
  movLayers : List MovLayer
  fieldFence : Region
  count : Int

/-- Lines 239-250: one firing of `wdt_c_handler`.  `p2sw` is the value that `p2sw_read()`
returns when this firing calls it. -/
def wdt_c_handler (g : Game) (p2sw : Nat) : Game :=
  let count := g.count + 1
  if count = 15 then
    let r := mlAdvance g.w g.movLayers g.fieldFence
    let w1 := if p2sw ≠ 0 then { r.1 with redrawScreen := 1 } else r.1
    { w := w1, movLayers := r.2, fieldFence := g.fieldFence, count := 0 }
  else { g with count := count }

/-- Successive firings of the handler, one switch reading per firing. -/
def wdtRun (g : Game) : List Nat → Game
  | [] => g
  | p2sw :: rest => wdtRun (wdt_c_handler g p2sw) rest

/-- The two calls of the program that write `posNext`. -/
inductive Call where
  | movePaddle (switches : Nat)
  | mlAdvance

/-- Line 221: `movePaddle(switches)`, or line 245: `mlAdvance(&ml0, &fieldFence)`. -/
def doCall (g : Game) : Call → Game
  | Call.movePaddle switches => { g with w := movePaddle g.w switches }
  | Call.mlAdvance =>
      { g with w := (mlAdvance g.w g.movLayers g.fieldFence).1,
               movLayers := (mlAdvance g.w g.movLayers g.fieldFence).2 }

/-- A finite interleaving of calls, in order. -/
def doCalls (g : Game) : List Call → Game
  | [] => g
  | c :: rest => doCalls (doCall g c) rest

/-- Line 226: `movLayerDraw(&ml0, layers)` on the globals of the game. -/
def drawCall (g : Game) (layers : List LayerId) : Game × List Ev :=
  ({ g with w := (movLayerDraw g.w g.movLayers layers).1 },
   (movLayerDraw g.w g.movLayers layers).2)

/-- The nodes reached from the pointer `head` by following `next` up to the null pointer
are exactly `layers`, in this order. -/
def IsLayerList (heap : LayerId → Layer) : Option LayerId → List LayerId → Prop
  | none, [] => True
  | some p, q :: rest => p = q ∧ IsLayerList heap (heap p).next rest
  | none, _ :: _ => False
  | some _, [] => False

/-! ## Vocabulary of the claims about mlAdvance -/

/-- Candidate bounding region of a moving layer: the bounds of its shape at the candidate
position `posNext + velocity`. -/
def candidateBounds (w : World) (m : MovLayer) : Region :=
  abShapeGetBounds (w.heap m.layer).abShape (vec2Add (w.heap m.layer).posNext m.velocity)

/-- Paddle contact: the paddle rectangle placed at the paddle `pos` contains the ball `pos`. -/
def paddleContact (w : World) : Prop :=
  abShapeCheck rect10 (w.heap layer1).pos (w.heap layer0).pos = true

instance (w : World) : Decidable (paddleContact w) := by
  unfold paddleContact
  infer_instance

/-- Reflection condition of axis `a` for bounds `B`: min edge under the fence min, or max
edge over the fence max, or paddle contact. -/
def fires (fence B : Region) (w : World) (a : Fin 2) : Prop :=
  B.topLeft.axes a < fence.topLeft.axes a ∨ B.botRight.axes a > fence.botRight.axes a ∨
    paddleContact w

instance (fence B : Region) (w : World) (a : Fin 2) : Decidable (fires fence B w a) := by
  unfold fires
  infer_instance

/-- Qualifying boundary event of the score for the pair `(m, a)`: the reflection condition
of axis `a` fires and the max edge of the candidate bounds on axis `a` is greater than the
axis-0 max of the fence and not greater than the axis-1 max of the fence. -/
def scoreEvent (w : World) (fence : Region) (m : MovLayer) (a : Fin 2) : Prop :=
  fires fence (candidateBounds w m) w a ∧
    (candidateBounds w m).botRight.axes a > fence.botRight.axes 0 ∧
    ¬ ((candidateBounds w m).botRight.axes a > fence.botRight.axes 1)

instance (w : World) (fence : Region) (m : MovLayer) (a : Fin 2) :
    Decidable (scoreEvent w fence m a) := by
  unfold scoreEvent
  infer_instance

/-- Loss test as the code makes it for the pair `(m, a)`: the reflection condition of axis
`a` fires and the axis-0 min edge of the candidate bounds is under the axis-`a` min of the
fence. -/
def lossEvent (w : World) (fence : Region) (m : MovLayer) (a : Fin 2) : Prop :=
  fires fence (candidateBounds w m) w a ∧
    (candidateBounds w m).topLeft.axes 0 < fence.topLeft.axes a

instance (w : World) (fence : Region) (m : MovLayer) (a : Fin 2) :
    Decidable (lossEvent w fence m a) := by
  unfold lossEvent
  infer_instance

/-- Loss event as the claim words it, for the pair `(m, a)`: the reflection condition of
axis `a` fires and the axis-0 min edge of the candidate bounds lies below the axis-0 min
edge of the fence. -/
def minBreachEvent (w : World) (fence : Region) (m : MovLayer) (a : Fin 2) : Prop :=
  fires fence (candidateBounds w m) w a ∧
    (candidateBounds w m).topLeft.axes 0 < fence.topLeft.axes 0

instance (w : World) (fence : Region) (m : MovLayer) (a : Fin 2) :
    Decidable (minBreachEvent w fence m a) := by
  unfold minBreachEvent
  infer_instance

/-- Closed form of the position that line 144 stores for a moving layer: on each axis the
mirror image `posNext - velocity` when the axis fires, the candidate otherwise. -/
def storedPos (w : World) (fence : Region) (m : MovLayer) : Vec2 :=
  { x := if fires fence (candidateBounds w m) w 0
      then (w.heap m.layer).posNext.x - m.velocity.x else (w.heap m.layer).posNext.x + m.velocity.x,
    y := if fires fence (candidateBounds w m) w 1
      then (w.heap m.layer).posNext.y - m.velocity.y else (w.heap m.layer).posNext.y + m.velocity.y }

/-- Number of axes, among 0 and 1, that satisfy `P`. -/
def countAxes (P : Fin 2 → Prop) [DecidablePred P] : Nat :=
  (if P 0 then 1 else 0) + (if P 1 then 1 else 0)

/-- Number of pairs (moving layer, axis) with a qualifying score event in one call, each
moving layer taken in the state in which its turn comes. -/
def scoreEvents (w : World) (fence : Region) : List MovLayer → Nat
  | [] => 0
  | m :: rest =>
      countAxes (scoreEvent w fence m) + scoreEvents (advanceLayer w fence m).1 fence rest

/-- Number of pairs (moving layer, axis) that pass the loss test of the code in one call,
each moving layer taken in the state in which its turn comes. -/
def lossEvents (w : World) (fence : Region) : List MovLayer → Nat
  | [] => 0
  | m :: rest =>
      countAxes (lossEvent w fence m) + lossEvents (advanceLayer w fence m).1 fence rest

/-- Number of pairs (moving layer, axis) with a loss event as the claim words it, in one
call, each moving layer taken in the state in which its turn comes. -/
def minBreachEvents (w : World) (fence : Region) : List MovLayer → Nat
  | [] => 0
  | m :: rest =>
      countAxes (minBreachEvent w fence m)
        + minBreachEvents (advanceLayer w fence m).1 fence rest

/-- The bounds of `shape` placed at `q` lie inside the fence on both axes. -/
def insideFence (fence : Region) (shape : AbShape) (q : Vec2) : Prop :=
  ∀ a : Fin 2,
    fence.topLeft.axes a ≤ (abShapeGetBounds shape q).topLeft.axes a ∧
    (abShapeGetBounds shape q).botRight.axes a ≤ fence.botRight.axes a

/-- The moving-layer list is the ball node followed by the paddle node, the bounds of the
ball are its centre plus and minus `half`, and they lie inside the fence of the game both
at the `posNext` of the ball and at `posNext` minus its velocity. -/
def BallInside (g : Game) (half : Vec2) : Prop :=
  ∃ b pd : MovLayer, g.movLayers = [b, pd] ∧ b.layer = layer0 ∧ pd.layer = layer1 ∧
    (∀ c, abShapeGetBounds (g.w.heap layer0).abShape c = abRectGetBounds half c) ∧
    insideFence g.fieldFence (g.w.heap layer0).abShape (g.w.heap layer0).posNext ∧
    insideFence g.fieldFence (g.w.heap layer0).abShape
      (vec2Sub (g.w.heap layer0).posNext b.velocity)

/-- Value that a two's complement `int` of `bits` bits holds when the exact result is `x`.
The width of `int` belongs to the target and is not in the source file: 16 bits on the
MSP430, 32 bits with a host compiler. -/
def intValue (bits : Nat) (x : Int) : Int :=
  (x + 2 ^ (bits - 1)) % 2 ^ bits - 2 ^ (bits - 1)

/-- `INT_MAX` for an `int` of `bits` bits. -/
def intMax (bits : Nat) : Int := 2 ^ (bits - 1) - 1

/-- `INT_MIN` for an `int` of `bits` bits. -/
def intMin (bits : Nat) : Int := - 2 ^ (bits - 1)

/-- Line 135, `s++`, on an `int` of `bits` bits. -/
def intIncr (bits : Nat) (x : Int) : Int := intValue bits (x + 1)

/-- The value of the `int s` of the compiled program after one call of `mlAdvance`: the
exact count of the model brought into the range of `int`. -/
def scoreHeld (bits : Nat) (w : World) (mls : List MovLayer) (fence : Region) : Int :=
  intValue bits (mlAdvance w mls fence).1.s

/-- The node with the velocity negated on both axes. -/
def negNode (m : MovLayer) : MovLayer :=
  { m with velocity := { x := - m.velocity.x, y := - m.velocity.y } }

/-- The memory after the `posNext` of the layer of `m` is moved back by the velocity of
`m`: `posNext - velocity` on both axes. -/
def mirrorStep (heap : LayerId → Layer) (m : MovLayer) : LayerId → Layer :=
  Function.update heap m.layer
    { heap m.layer with posNext := vec2Sub (heap m.layer).posNext m.velocity }

/-- The memory after `mirrorStep` for every node of the list, in order. -/
def mirrorAll (heap : LayerId → Layer) : List MovLayer → (LayerId → Layer)
  | [] => heap
  | m :: rest => mirrorAll (mirrorStep heap m) rest

/-! ## Test fixtures -/

/-- A square ball: bounding region centre plus and minus 3 on each axis. -/
def ball3 : AbShape := abRect { x := 3, y := 3 }

/-- The fence of the program: bounds of the field outline, (10,10)-(118,150). -/
def programFence : Region :=
  { topLeft := { x := 10, y := 10 }, botRight := { x := 118, y := 150 } }

/-- A memory with the ball at `layer0` and the paddle everywhere else. -/
def heapOf (ball paddle : Layer) : LayerId → Layer :=
  fun id => if id = layer0 then ball else paddle

/-- Globals with the given memory, score and loss counter. -/
def worldOf (heap : LayerId → Layer) (s gameOver : Int) : World :=
  { heap := heap, s := s, gameOver := gameOver, p1out := 0, bgColor := 0, redrawScreen := 1 }

/-- A layer at rest at one position. -/
def layerAt (shape : AbShape) (pos posNext : Vec2) (color : Color) : Layer :=
  { abShape := shape, pos := pos, posLast := pos, posNext := posNext, color := color,
    next := none }

/-- The moving ball node with the given velocity. -/
def ballNode (velocity : Vec2) : MovLayer :=
  { layer := layer0, velocity := velocity }

/-- Globals of a fresh game (score 0, loss counter 0) with a square ball of half size 3
whose `pos` is `ballPos` and `posNext` is `ballNext`, and the paddle at rest at `paddlePos`. -/
def gameWorld (ballPos ballNext paddlePos : Vec2) : World :=
  worldOf (heapOf (layerAt ball3 ballPos ballNext 1) (layerAt rect10 paddlePos paddlePos 2)) 0 0

/-- The paddle node of the program: `ml1`, velocity `(0,0)`. -/
def paddleNode : MovLayer :=
  { layer := layer1, velocity := { x := 0, y := 0 } }

/-- A game in the state of the program start: ball at (74,85) with velocity (3,3), paddle
at (15,80) with velocity (0,0), program fence, `count = 0`. -/
def programGame : Game :=
  { w := gameWorld ⟨74, 85⟩ ⟨74, 85⟩ ⟨15, 80⟩,
    movLayers := [ballNode ⟨3, 3⟩, paddleNode],
    fieldFence := programFence,
    count := 0 }

/-! ## Lists and loops -/

theorem countUp_length (lo : Int) (n : Nat) : (countUp lo n).length = n := by
  induction n generalizing lo with
  | zero => rfl
  | succ n ih => simp [countUp, ih]

theorem countUp_getElem? (lo : Int) (n k : Nat) (h : k < n) :
    (countUp lo n)[k]? = some (lo + (k : Int)) := by
  induction n generalizing lo k with
  | zero => omega
  | succ n ih =>
    cases k with
    | zero => simp [countUp]
    | succ k =>
      have hk : k < n := by omega
      simp only [countUp, List.getElem?_cons_succ, ih (lo + 1) k hk]
      congr 1
      push_cast
      ring

theorem forLoop_length (lo hi : Int) : (forLoop lo hi).length = (hi + 1 - lo).toNat :=
  countUp_length lo _

theorem forLoop_getElem? (lo hi v : Int) (h1 : lo ≤ v) (h2 : v ≤ hi) :
    (forLoop lo hi)[(v - lo).toNat]? = some v := by
  unfold forLoop
  rw [countUp_getElem? lo _ _ (by omega)]
  congr 1
  omega

theorem flatMap_map_getElem? {α β γ : Type} (f : α → β → γ) (cs : List β) (c : β) (j : Nat)
    (hc : cs[j]? = some c) (rs : List α) (r : α) (i : Nat) (hr : rs[i]? = some r) :
    (rs.flatMap fun a => cs.map (f a))[i * cs.length + j]? = some (f r c) := by
  have hj : j < cs.length := (List.getElem?_eq_some.mp hc).1
  induction rs generalizing i with
  | nil => simp at hr
  | cons a rest ih =>
    rw [List.flatMap_cons]
    cases i with
    | zero =>
      simp only [List.getElem?_cons_zero, Option.some.injEq] at hr
      subst hr
      rw [List.getElem?_append_left (by simpa using hj)]
      simp [hc]
    | succ i =>
      simp only [List.getElem?_cons_succ] at hr
      rw [List.getElem?_append_right (by simp; nlinarith)]
      have e : (i + 1) * cs.length + j - (List.map (f a) cs).length = i * cs.length + j := by
        simp only [List.length_map]
        rw [Nat.succ_mul]
        omega
      rw [e]
      exact ih i hr

/-! ## movLayerDraw -/

theorem probeLayers_first (heap : LayerId → Layer) (bgColor : Color) (pixelPos : Vec2)
    (pre : List LayerId) (p : LayerId) (post : List LayerId)
    (hpre : ∀ q ∈ pre, abShapeCheck (heap q).abShape (heap q).pos pixelPos = false)
    (hp : abShapeCheck (heap p).abShape (heap p).pos pixelPos = true) :
    probeLayers heap bgColor pixelPos (pre ++ p :: post) = (heap p).color := by
  induction pre with
  | nil => simp [probeLayers, hp]
  | cons q rest ih =>
    have hq := hpre q (List.mem_cons_self q rest)
    simp only [List.cons_append, probeLayers, hq, Bool.false_eq_true, if_false]
    exact ih (fun x hx => hpre x (List.mem_cons_of_mem q hx))

theorem probeLayers_none (heap : LayerId → Layer) (bgColor : Color) (pixelPos : Vec2)
    (layers : List LayerId)
    (h : ∀ q ∈ layers, abShapeCheck (heap q).abShape (heap q).pos pixelPos = false) :
    probeLayers heap bgColor pixelPos layers = bgColor := by
  induction layers with
  | nil => rfl
  | cons q rest ih =>
    have hq := h q (List.mem_cons_self q rest)
    simp only [probeLayers, hq, Bool.false_eq_true, if_false]
    exact ih (fun x hx => h x (List.mem_cons_of_mem q hx))

theorem drawLoop_eq_flatMap (w : World) (layers : List LayerId) (movLayers : List MovLayer) :
    drawLoop w layers movLayers = movLayers.flatMap (drawLayer w layers) := by
  induction movLayers with
  | nil => rfl
  | cons m rest ih => simp [drawLoop, ih]

theorem drawPixels_getElem? (w : World) (layers : List LayerId) (bounds : Region) (col row : Int)
    (hx1 : bounds.topLeft.x ≤ col) (hx2 : col ≤ bounds.botRight.x)
    (hy1 : bounds.topLeft.y ≤ row) (hy2 : row ≤ bounds.botRight.y) :
    (drawPixels w layers bounds)[(row - bounds.topLeft.y).toNat
        * (bounds.botRight.x + 1 - bounds.topLeft.x).toNat + (col - bounds.topLeft.x).toNat]?
      = some (Ev.lcdWriteColor (probeLayers w.heap w.bgColor { x := col, y := row } layers)) := by
  have hc := forLoop_getElem? bounds.topLeft.x bounds.botRight.x col hx1 hx2
  have hr := forLoop_getElem? bounds.topLeft.y bounds.botRight.y row hy1 hy2
  have h := flatMap_map_getElem?
    (fun (row col : Int) =>
      Ev.lcdWriteColor (probeLayers w.heap w.bgColor { x := col, y := row } layers))
    _ col _ hc _ row _ hr
  rw [forLoop_length] at h
  exact h

/-- C1. Occlusion correctness of `movLayerDraw`.  The trace is the two status register
calls followed by one block per moving layer, in order.  In the block of a moving layer,
for every pixel `(col,row)` of the repainted region, the write at the row-major position of
that pixel carries the colour of the first layer, in list order, whose shape placed at its
post-commit `pos` contains the pixel, and `bgColor` when no layer contains it. -/
theorem movLayerDraw_occlusion (w : World) (movLayers : List MovLayer) (layers : List LayerId) :
    (movLayerDraw w movLayers layers).2
        = Ev.andSr (-9) :: Ev.orSr 8
            :: movLayers.flatMap (drawLayer (movLayerDraw w movLayers layers).1 layers) ∧
    ∀ m ∈ movLayers, ∀ col row : Int,
      (layerGetBounds ((movLayerDraw w movLayers layers).1.heap m.layer)).topLeft.x ≤ col ∧
      col ≤ (layerGetBounds ((movLayerDraw w movLayers layers).1.heap m.layer)).botRight.x ∧
      (layerGetBounds ((movLayerDraw w movLayers layers).1.heap m.layer)).topLeft.y ≤ row ∧
      row ≤ (layerGetBounds ((movLayerDraw w movLayers layers).1.heap m.layer)).botRight.y →
      ∃ color : Color,
        (drawLayer (movLayerDraw w movLayers layers).1 layers m)[1
            + (row - (layerGetBounds ((movLayerDraw w movLayers layers).1.heap m.layer)).topLeft.y).toNat
              * ((layerGetBounds ((movLayerDraw w movLayers layers).1.heap m.layer)).botRight.x + 1
                  - (layerGetBounds ((movLayerDraw w movLayers layers).1.heap m.layer)).topLeft.x).toNat
            + (col - (layerGetBounds ((movLayerDraw w movLayers layers).1.heap m.layer)).topLeft.x).toNat]?
          = some (Ev.lcdWriteColor color) ∧
        (∀ (pre : List LayerId) (p : LayerId) (post : List LayerId),
          layers = pre ++ p :: post →
          (∀ q ∈ pre, abShapeCheck ((movLayerDraw w movLayers layers).1.heap q).abShape
              ((movLayerDraw w movLayers layers).1.heap q).pos { x := col, y := row } = false) →
          abShapeCheck ((movLayerDraw w movLayers layers).1.heap p).abShape
              ((movLayerDraw w movLayers layers).1.heap p).pos { x := col, y := row } = true →
          color = ((movLayerDraw w movLayers layers).1.heap p).color) ∧
        ((∀ q ∈ layers, abShapeCheck ((movLayerDraw w movLayers layers).1.heap q).abShape
              ((movLayerDraw w movLayers layers).1.heap q).pos { x := col, y := row } = false) →
          color = w.bgColor) := by
  refine ⟨by simp [movLayerDraw, drawLoop_eq_flatMap], ?_⟩
  intro m _ col row ⟨hx1, hx2, hy1, hy2⟩
  refine ⟨probeLayers (movLayerDraw w movLayers layers).1.heap w.bgColor { x := col, y := row }
    layers, ?_, ?_, ?_⟩
  · have h := drawPixels_getElem? (movLayerDraw w movLayers layers).1 layers _ col row
      hx1 hx2 hy1 hy2
    unfold drawLayer
    simp only []
    rw [Nat.add_assoc, Nat.add_comm 1, List.getElem?_cons_succ]
    exact h
  · intro pre p post hl hpre hp
    subst hl
    exact probeLayers_first _ _ _ pre p post hpre hp
  · intro hnone
    exact probeLayers_none _ _ _ layers hnone

/-- Witness of C1: the ball (first in the list, colour 1) and the paddle (colour 2) both
contain the pixel (15,80); the write for that pixel carries the colour of the ball. -/
theorem movLayerDraw_occlusion_witness :
    (drawLayer (movLayerDraw (gameWorld ⟨12, 77⟩ ⟨15, 80⟩ ⟨15, 80⟩) [ballNode ⟨3, 3⟩]
        [layer0, layer1]).1 [layer0, layer1] (ballNode ⟨3, 3⟩))[67]?
      = some (Ev.lcdWriteColor 1) := by
  obtain ⟨c, h1, h2, _⟩ := (movLayerDraw_occlusion (gameWorld ⟨12, 77⟩ ⟨15, 80⟩ ⟨15, 80⟩)
    [ballNode ⟨3, 3⟩] [layer0, layer1]).2 (ballNode ⟨3, 3⟩) (by decide) 15 80 (by decide)
  have hc := h2 [] layer0 [layer1] rfl (by simp) (by decide)
  rw [hc] at h1
  exact h1

/-! ## movLayerDraw: the commit loop -/

theorem commitLoop_other (heap : LayerId → Layer) (l : List MovLayer) (id : LayerId)
    (h : ∀ n ∈ l, n.layer ≠ id) : commitLoop heap l id = heap id := by
  induction l generalizing heap with
  | nil => rfl
  | cons m rest ih =>
    have hm : id ≠ m.layer := fun e => h m (List.mem_cons_self m rest) e.symm
    simp only [commitLoop]
    rw [ih _ (fun n hn => h n (List.mem_cons_of_mem m hn))]
    rw [Function.update_noteq hm, Function.update_noteq hm]

theorem commitLoop_distinct (heap : LayerId → Layer) (l : List MovLayer)
    (hd : (l.map MovLayer.layer).Nodup) (m : MovLayer) (hm : m ∈ l) :
    (commitLoop heap l m.layer).posLast = (heap m.layer).pos ∧
    (commitLoop heap l m.layer).pos = (heap m.layer).posNext := by
  induction l generalizing heap with
  | nil => simp at hm
  | cons n rest ih =>
    rw [List.map_cons, List.nodup_cons] at hd
    simp only [commitLoop]
    rcases List.mem_cons.mp hm with e | hin
    · subst e
      rw [commitLoop_other _ rest m.layer (fun k hk e => hd.1 (e ▸ List.mem_map_of_mem _ hk))]
      simp [Function.update_same]
    · have hne : m.layer ≠ n.layer := fun e => hd.1 (e ▸ List.mem_map_of_mem _ hin)
      obtain ⟨h1, h2⟩ := ih (Function.update
        (Function.update heap n.layer { heap n.layer with posLast := (heap n.layer).pos })
        n.layer
        { Function.update heap n.layer { heap n.layer with posLast := (heap n.layer).pos }
            n.layer with
          pos := (Function.update heap n.layer
            { heap n.layer with posLast := (heap n.layer).pos } n.layer).posNext }) hd.2 hin
      rw [Function.update_noteq hne, Function.update_noteq hne] at h1 h2
      exact ⟨h1, h2⟩

/-- C4. Commit step of `movLayerDraw`.  When the entries of the moving-layer list point to
pairwise distinct layers, after the call each moving layer has `posLast` equal to its
`pos` before the call and `pos` equal to its `posNext` before the call.  The memory
returned is the one the commit loop leaves, and every drawing event is computed from that
memory: the commit of all moving layers is complete before any `pos` is read. -/
theorem movLayerDraw_commit (w : World) (movLayers : List MovLayer) (layers : List LayerId)
    (hd : (movLayers.map MovLayer.layer).Nodup) :
    (∀ m ∈ movLayers,
      ((movLayerDraw w movLayers layers).1.heap m.layer).posLast = (w.heap m.layer).pos ∧
      ((movLayerDraw w movLayers layers).1.heap m.layer).pos = (w.heap m.layer).posNext) ∧
    (movLayerDraw w movLayers layers).1.heap = commitLoop w.heap movLayers ∧
    (movLayerDraw w movLayers layers).2
      = Ev.andSr (-9) :: Ev.orSr 8
          :: drawLoop { w with heap := commitLoop w.heap movLayers } layers movLayers := by
  refine ⟨?_, rfl, rfl⟩
  intro m hm
  exact commitLoop_distinct w.heap movLayers hd m hm

/-- Witness of C4: the program list, ball then paddle, on a memory where the ball has
`pos = (74,85)` and `posNext = (77,88)`. -/
theorem movLayerDraw_commit_witness :
    ((movLayerDraw (gameWorld ⟨74, 85⟩ ⟨77, 88⟩ ⟨15, 80⟩)
        [ballNode ⟨3, 3⟩, { layer := layer1, velocity := ⟨0, 0⟩ }]
        [layer0, layer1]).1.heap layer0).posLast = ⟨74, 85⟩ ∧
    ((movLayerDraw (gameWorld ⟨74, 85⟩ ⟨77, 88⟩ ⟨15, 80⟩)
        [ballNode ⟨3, 3⟩, { layer := layer1, velocity := ⟨0, 0⟩ }]
        [layer0, layer1]).1.heap layer0).pos = ⟨77, 88⟩ :=
  (movLayerDraw_commit (gameWorld ⟨74, 85⟩ ⟨77, 88⟩ ⟨15, 80⟩)
    [ballNode ⟨3, 3⟩, { layer := layer1, velocity := ⟨0, 0⟩ }] [layer0, layer1]
    (by decide)).1 (ballNode ⟨3, 3⟩) (by decide)

/-! ## mlAdvance: one axis, one moving layer -/

theorem Vec2.eq_of_axes (u v : Vec2) (h0 : u.axes 0 = v.axes 0) (h1 : u.axes 1 = v.axes 1) :
    u = v := by
  cases u
  cases v
  simp [Vec2.axes] at h0 h1
  simp [h0, h1]

theorem axes_setAxis (v : Vec2) (a b : Fin 2) (val : Int) :
    (v.setAxis a val).axes b = if b = a then val else v.axes b := by
  fin_cases a <;> fin_cases b <;> simp [Vec2.axes, Vec2.setAxis]

theorem axisBody_eq (fence B : Region) (a : Fin 2) (st : AxisState) :
    axisBody fence B a st =
      { w := { st.w with
                gameOver := st.w.gameOver
                  + (if fires fence B st.w a ∧ B.topLeft.axes 0 < fence.topLeft.axes a
                      then 1 else 0),
                s := st.w.s
                  + (if fires fence B st.w a ∧ B.botRight.axes a > fence.botRight.axes 0 ∧
                        ¬ (B.botRight.axes a > fence.botRight.axes 1) then 1 else 0),
                p1out := if fires fence B st.w a ∧ B.botRight.axes a > fence.botRight.axes 0 ∧
                        ¬ (B.botRight.axes a > fence.botRight.axes 1)
                      then ledPulse st.w.p1out else st.w.p1out },
        velocity := if fires fence B st.w a
          then st.velocity.setAxis a (- st.velocity.axes a) else st.velocity,
        newPos := if fires fence B st.w a
          then st.newPos.setAxis a (st.newPos.axes a + 2 * (- st.velocity.axes a))
          else st.newPos } := by
  have hc : ((decide (B.topLeft.axes a < fence.topLeft.axes a) ||
      decide (B.botRight.axes a > fence.botRight.axes a) ||
      (abShapeCheck rect10 (st.w.heap layer1).pos (st.w.heap layer0).pos == true)) = true)
      ↔ fires fence B st.w a := by
    simp [fires, paddleContact, or_assoc]
  unfold axisBody
  by_cases h : fires fence B st.w a
  · rw [if_pos (hc.mpr h)]
    simp only [h, true_and, if_true]
    by_cases h1 : B.topLeft.axes 0 < fence.topLeft.axes a <;>
    by_cases h2 : (B.botRight.axes a > fence.botRight.axes 0 ∧
        ¬ (B.botRight.axes a > fence.botRight.axes 1))
    · simp only [if_pos h1, if_pos h2]
    · simp only [if_pos h1, if_neg h2, add_zero]
    · simp only [if_neg h1, if_pos h2, add_zero]
    · simp only [if_neg h1, if_neg h2, add_zero]
  · rw [if_neg (fun hh => h (hc.mp hh))]
    simp only [h, false_and, if_false, add_zero]

theorem fires_heap (fence B : Region) (w1 w2 : World) (a : Fin 2) (h : w1.heap = w2.heap) :
    fires fence B w1 a ↔ fires fence B w2 a := by
  simp [fires, paddleContact, h]

theorem axisBody_heap (fence B : Region) (a : Fin 2) (st : AxisState) :
    (axisBody fence B a st).w.heap = st.w.heap := by
  rw [axisBody_eq]

theorem axisBody_fires (fence B B2 : Region) (a b : Fin 2) (st : AxisState) :
    fires fence B2 (axisBody fence B a st).w b ↔ fires fence B2 st.w b :=
  fires_heap fence B2 _ _ b (axisBody_heap fence B a st)

theorem advanceLayer_layer (w : World) (fence : Region) (m : MovLayer) :
    (advanceLayer w fence m).2.layer = m.layer := rfl

theorem advanceLayer_velocity (w : World) (fence : Region) (m : MovLayer) (a : Fin 2) :
    (advanceLayer w fence m).2.velocity.axes a
      = if fires fence (candidateBounds w m) w a then - m.velocity.axes a
        else m.velocity.axes a := by
  unfold advanceLayer
  simp only []
  rw [axisBody_eq fence _ 1]
  simp only [axisBody_fires]
  rw [axisBody_eq fence _ 0]
  simp only []
  fin_cases a <;>
  by_cases h0 : fires fence (candidateBounds w m) w 0 <;>
  by_cases h1 : fires fence (candidateBounds w m) w 1 <;>
  simp [candidateBounds] at h0 h1 <;>
  simp [candidateBounds, h0, h1, axes_setAxis]

theorem advanceLayer_heap (w : World) (fence : Region) (m : MovLayer) :
    (advanceLayer w fence m).1.heap
      = Function.update w.heap m.layer
          { w.heap m.layer with posNext := storedPos w fence m } := by
  unfold advanceLayer
  simp only []
  rw [axisBody_eq fence _ 1]
  simp only [axisBody_fires]
  rw [axisBody_eq fence _ 0]
  simp only []
  have e : ∀ p v : Int, p + v + -(2 * v) = p - v := fun p v => by ring
  by_cases h0 : fires fence (candidateBounds w m) w 0 <;>
  by_cases h1 : fires fence (candidateBounds w m) w 1 <;>
  simp only [candidateBounds] at h0 h1 <;>
  simp only [storedPos, candidateBounds, h0, h1, if_true, if_false] <;>
  simp [Vec2.axes, Vec2.setAxis, vec2Add, e]

theorem advanceLayer_s (w : World) (fence : Region) (m : MovLayer) :
    (advanceLayer w fence m).1.s = w.s + (countAxes (scoreEvent w fence m) : Int) := by
  unfold advanceLayer
  simp only []
  rw [axisBody_eq fence _ 1]
  simp only [axisBody_fires]
  rw [axisBody_eq fence _ 0]
  simp only [countAxes, scoreEvent, candidateBounds]
  push_cast
  rw [add_assoc]

theorem advanceLayer_gameOver (w : World) (fence : Region) (m : MovLayer) :
    (advanceLayer w fence m).1.gameOver = w.gameOver + (countAxes (lossEvent w fence m) : Int) := by
  unfold advanceLayer
  simp only []
  rw [axisBody_eq fence _ 1]
  simp only [axisBody_fires]
  rw [axisBody_eq fence _ 0]
  simp only [countAxes, lossEvent, candidateBounds]
  push_cast
  rw [add_assoc]

theorem advanceLayer_bgColor (w : World) (fence : Region) (m : MovLayer) :
    (advanceLayer w fence m).1.bgColor = w.bgColor := by
  unfold advanceLayer
  simp only []
  rw [axisBody_eq fence _ 1, axisBody_eq fence _ 0]

theorem advanceLayer_redrawScreen (w : World) (fence : Region) (m : MovLayer) :
    (advanceLayer w fence m).1.redrawScreen = w.redrawScreen := by
  unfold advanceLayer
  simp only []
  rw [axisBody_eq fence _ 1, axisBody_eq fence _ 0]

/-! ## mlAdvance: the loop over the moving layers -/

theorem mlAdvance_append (w : World) (fence : Region) (l1 l2 : List MovLayer) :
    mlAdvance w (l1 ++ l2) fence
      = ((mlAdvance (mlAdvance w l1 fence).1 l2 fence).1,
         (mlAdvance w l1 fence).2 ++ (mlAdvance (mlAdvance w l1 fence).1 l2 fence).2) := by
  induction l1 generalizing w with
  | nil => simp [mlAdvance]
  | cons m rest ih => simp [mlAdvance, ih]

theorem mlAdvance_length (w : World) (fence : Region) (l : List MovLayer) :
    (mlAdvance w l fence).2.length = l.length := by
  induction l generalizing w with
  | nil => rfl
  | cons m rest ih => simp [mlAdvance, ih]

theorem advanceLayer_heap_other (w : World) (fence : Region) (m : MovLayer) (id : LayerId)
    (h : id ≠ m.layer) : (advanceLayer w fence m).1.heap id = w.heap id := by
  rw [advanceLayer_heap, Function.update_noteq h]

theorem advanceLayer_heap_same (w : World) (fence : Region) (m : MovLayer) :
    (advanceLayer w fence m).1.heap m.layer
      = { w.heap m.layer with posNext := storedPos w fence m } := by
  rw [advanceLayer_heap, Function.update_same]

theorem advanceLayer_frame (w : World) (fence : Region) (m : MovLayer) (id : LayerId) :
    ((advanceLayer w fence m).1.heap id).pos = (w.heap id).pos ∧
    ((advanceLayer w fence m).1.heap id).posLast = (w.heap id).posLast ∧
    ((advanceLayer w fence m).1.heap id).abShape = (w.heap id).abShape ∧
    ((advanceLayer w fence m).1.heap id).color = (w.heap id).color := by
  by_cases h : id = m.layer
  · subst h
    rw [advanceLayer_heap_same]
    exact ⟨rfl, rfl, rfl, rfl⟩
  · rw [advanceLayer_heap_other w fence m id h]
    exact ⟨rfl, rfl, rfl, rfl⟩

theorem mlAdvance_frame (w : World) (fence : Region) (l : List MovLayer) (id : LayerId) :
    ((mlAdvance w l fence).1.heap id).pos = (w.heap id).pos ∧
    ((mlAdvance w l fence).1.heap id).posLast = (w.heap id).posLast ∧
    ((mlAdvance w l fence).1.heap id).abShape = (w.heap id).abShape ∧
    ((mlAdvance w l fence).1.heap id).color = (w.heap id).color := by
  induction l generalizing w with
  | nil => exact ⟨rfl, rfl, rfl, rfl⟩
  | cons m rest ih =>
    obtain ⟨h1, h2, h3, h4⟩ := ih (advanceLayer w fence m).1
    obtain ⟨g1, g2, g3, g4⟩ := advanceLayer_frame w fence m id
    simp only [mlAdvance]
    exact ⟨h1.trans g1, h2.trans g2, h3.trans g3, h4.trans g4⟩

theorem mlAdvance_heap_other (w : World) (fence : Region) (l : List MovLayer) (id : LayerId)
    (h : ∀ n ∈ l, n.layer ≠ id) : (mlAdvance w l fence).1.heap id = w.heap id := by
  induction l generalizing w with
  | nil => rfl
  | cons m rest ih =>
    simp only [mlAdvance]
    rw [ih _ (fun n hn => h n (List.mem_cons_of_mem m hn))]
    exact advanceLayer_heap_other w fence m id (fun e => h m (List.mem_cons_self m rest) e.symm)

theorem paddleContact_congr (w1 w2 : World) (h : ∀ id, (w1.heap id).pos = (w2.heap id).pos) :
    paddleContact w1 ↔ paddleContact w2 := by
  simp [paddleContact, h]

theorem fires_congr (fence B : Region) (w1 w2 : World) (a : Fin 2)
    (h : ∀ id, (w1.heap id).pos = (w2.heap id).pos) :
    fires fence B w1 a ↔ fires fence B w2 a := by
  simp [fires, paddleContact_congr w1 w2 h]

theorem mlAdvance_s (w : World) (fence : Region) (l : List MovLayer) :
    (mlAdvance w l fence).1.s = w.s + (scoreEvents w fence l : Int) := by
  induction l generalizing w with
  | nil => simp [mlAdvance, scoreEvents]
  | cons m rest ih =>
    simp only [mlAdvance, scoreEvents, ih, advanceLayer_s]
    push_cast
    ring

theorem mlAdvance_gameOver (w : World) (fence : Region) (l : List MovLayer) :
    (mlAdvance w l fence).1.gameOver = w.gameOver + (lossEvents w fence l : Int) := by
  induction l generalizing w with
  | nil => simp [mlAdvance, lossEvents]
  | cons m rest ih =>
    simp only [mlAdvance, lossEvents, ih, advanceLayer_gameOver]
    push_cast
    ring

theorem mlAdvance_single (w : World) (fence : Region) (m : MovLayer) :
    mlAdvance w [m] fence = ((advanceLayer w fence m).1, [(advanceLayer w fence m).2]) := rfl

/-- C2. Per-axis update of `mlAdvance`.  For the moving layer `m` at any place of the list
(`pre` before it, `post` after it), with `p` its `posNext` and `v` its velocity when its
turn comes, `c = p + v` and `B` the bounds of its shape at `c`: on each axis `a`, when
`B` is under the fence min, or over the fence max, or the paddle contact holds, the
velocity of `m` after the call is `-v[a]` and the `posNext` stored for its layer is
`c[a] + 2 * (-v[a]) = p[a] - v[a]`; otherwise the velocity is `v[a]` and the stored
`posNext` is `p[a] + v[a]`.  The stored position is the one at the end of the call when no
later entry of the list points to the same layer, and `p` is the `posNext` at the start of
the call when no earlier entry does. -/
theorem mlAdvance_per_axis (w : World) (fence : Region) (pre : List MovLayer) (m : MovLayer)
    (post : List MovLayer) (a : Fin 2) :
    ∃ m1 : MovLayer,
      (mlAdvance w (pre ++ m :: post) fence).2[pre.length]? = some m1 ∧ m1.layer = m.layer ∧
      (let w0 := (mlAdvance w pre fence).1
       let w1 := (mlAdvance w (pre ++ [m]) fence).1
       let wEnd := (mlAdvance w (pre ++ m :: post) fence).1
       let p := (w0.heap m.layer).posNext
       let v := m.velocity
       let c := vec2Add p v
       let B := abShapeGetBounds (w0.heap m.layer).abShape c
       let trigger := B.topLeft.axes a < fence.topLeft.axes a ∨
         B.botRight.axes a > fence.botRight.axes a ∨
         abShapeCheck rect10 (w.heap layer1).pos (w.heap layer0).pos = true
       c.axes a = p.axes a + v.axes a ∧
       (trigger → m1.velocity.axes a = - v.axes a ∧
          (w1.heap m.layer).posNext.axes a = c.axes a + 2 * (- v.axes a) ∧
          (w1.heap m.layer).posNext.axes a = p.axes a - v.axes a) ∧
       (¬ trigger → m1.velocity.axes a = v.axes a ∧
          (w1.heap m.layer).posNext.axes a = p.axes a + v.axes a) ∧
       ((∀ n ∈ post, n.layer ≠ m.layer) →
          (wEnd.heap m.layer).posNext = (w1.heap m.layer).posNext) ∧
       ((∀ n ∈ pre, n.layer ≠ m.layer) → w0.heap m.layer = w.heap m.layer)) := by
  refine ⟨(advanceLayer (mlAdvance w pre fence).1 fence m).2, ?_, rfl, ?_⟩
  · rw [mlAdvance_append]
    simp only [mlAdvance]
    rw [List.getElem?_append_right (by rw [mlAdvance_length])]
    simp [mlAdvance_length]
  · have hf : fires fence (candidateBounds (mlAdvance w pre fence).1 m) (mlAdvance w pre fence).1 a
        ↔ ((abShapeGetBounds ((mlAdvance w pre fence).1.heap m.layer).abShape
              (vec2Add ((mlAdvance w pre fence).1.heap m.layer).posNext m.velocity)).topLeft.axes a
              < fence.topLeft.axes a ∨
            (abShapeGetBounds ((mlAdvance w pre fence).1.heap m.layer).abShape
              (vec2Add ((mlAdvance w pre fence).1.heap m.layer).posNext m.velocity)).botRight.axes a
              > fence.botRight.axes a ∨
            abShapeCheck rect10 (w.heap layer1).pos (w.heap layer0).pos = true) := by
      rw [fires_congr fence _ (mlAdvance w pre fence).1 w a
        (fun id => (mlAdvance_frame w fence pre id).1)]
      rfl
    have hw1 : ((mlAdvance w (pre ++ [m]) fence).1.heap m.layer).posNext
        = storedPos (mlAdvance w pre fence).1 fence m := by
      rw [mlAdvance_append, mlAdvance_single]
      simp only []
      rw [advanceLayer_heap_same]
    have hv := advanceLayer_velocity (mlAdvance w pre fence).1 fence m a
    simp only []
    refine ⟨?_, ?_, ?_, ?_, ?_⟩
    · fin_cases a <;> simp [vec2Add, Vec2.axes]
    · intro ht
      have ht2 := hf.mpr ht
      rw [hv, if_pos ht2, hw1]
      refine ⟨rfl, ?_, ?_⟩ <;>
      · fin_cases a <;> simp only [storedPos, Vec2.axes, vec2Add] <;>
          simp at ht2 <;> simp [ht2] <;> ring
    · intro ht
      have ht2 : ¬ fires fence (candidateBounds (mlAdvance w pre fence).1 m)
          (mlAdvance w pre fence).1 a := fun hh => ht (hf.mp hh)
      rw [hv, if_neg ht2, hw1]
      refine ⟨rfl, ?_⟩
      fin_cases a <;> simp only [storedPos, Vec2.axes] <;> simp at ht2 <;> simp [ht2]
    · intro hpost
      have e : pre ++ m :: post = (pre ++ [m]) ++ post := by simp
      rw [e, mlAdvance_append _ fence (pre ++ [m]) post]
      simp only []
      rw [mlAdvance_heap_other _ fence post m.layer hpost]
    · intro hpre
      exact mlAdvance_heap_other w fence pre m.layer hpre

/-- Witness of C2: a corner collision.  The ball at `posNext = (114,146)` with velocity
`(3,3)` has candidate bounds 114..120 by 146..152, over the fence max on both axes; on
axis 0 its velocity becomes -3 and its stored position 111. -/
theorem mlAdvance_per_axis_witness :
    (mlAdvance (gameWorld ⟨74, 85⟩ ⟨114, 146⟩ ⟨15, 80⟩) [ballNode ⟨3, 3⟩]
        programFence).2[0]? = some (ballNode ⟨-3, -3⟩) ∧
    ((mlAdvance (gameWorld ⟨74, 85⟩ ⟨114, 146⟩ ⟨15, 80⟩) [ballNode ⟨3, 3⟩]
        programFence).1.heap layer0).posNext.axes 0 = 111 ∧
    ((mlAdvance (gameWorld ⟨74, 85⟩ ⟨114, 146⟩ ⟨15, 80⟩) [ballNode ⟨3, 3⟩]
        programFence).1.heap layer0).posNext.axes 1 = 143 := by
  obtain ⟨m0, g1, g2, _, g3, _⟩ := mlAdvance_per_axis
    (gameWorld ⟨74, 85⟩ ⟨114, 146⟩ ⟨15, 80⟩) programFence [] (ballNode ⟨3, 3⟩) [] 0
  obtain ⟨m1, h1, _, _, h3, _⟩ := mlAdvance_per_axis
    (gameWorld ⟨74, 85⟩ ⟨114, 146⟩ ⟨15, 80⟩) programFence [] (ballNode ⟨3, 3⟩) [] 1
  have e : m1 = m0 := Option.some.inj (h1.symm.trans g1)
  subst e
  have a0 := g3 (by decide)
  have a1 := h3 (by decide)
  refine ⟨?_, a0.2.2, a1.2.2⟩
  rw [show (mlAdvance (gameWorld ⟨74, 85⟩ ⟨114, 146⟩ ⟨15, 80⟩) [ballNode ⟨3, 3⟩]
        programFence).2[0]? = some m1 from h1]
  congr 1
  cases m1 with
  | mk l v =>
    have hv : v = ⟨-3, -3⟩ := Vec2.eq_of_axes _ _ a0.1 a1.1
    simp only at g2
    rw [hv, g2]
    rfl

theorem abRectGetBounds_axes (half c : Vec2) (a : Fin 2) :
    (abRectGetBounds half c).topLeft.axes a = c.axes a - half.axes a ∧
    (abRectGetBounds half c).botRight.axes a = c.axes a + half.axes a := by
  fin_cases a <;> simp [abRectGetBounds, vec2Add, vec2Sub, Vec2.axes]

theorem storedPos_axes (w : World) (fence : Region) (m : MovLayer) (a : Fin 2) :
    (storedPos w fence m).axes a
      = if fires fence (candidateBounds w m) w a
        then (w.heap m.layer).posNext.axes a - m.velocity.axes a
        else (w.heap m.layer).posNext.axes a + m.velocity.axes a := by
  fin_cases a <;> simp [storedPos, Vec2.axes]

theorem vec2Add_axes (p v : Vec2) (a : Fin 2) : (vec2Add p v).axes a = p.axes a + v.axes a := by
  fin_cases a <;> simp [vec2Add, Vec2.axes]

theorem mlAdvance_stored (w : World) (fence : Region) (pre : List MovLayer) (m : MovLayer) :
    ((mlAdvance w (pre ++ [m]) fence).1.heap m.layer).posNext
      = storedPos (mlAdvance w pre fence).1 fence m := by
  rw [mlAdvance_append, mlAdvance_single]
  simp only []
  rw [advanceLayer_heap_same]

theorem mlAdvance_node (w : World) (fence : Region) (pre : List MovLayer) (m : MovLayer)
    (post : List MovLayer) :
    (mlAdvance w (pre ++ m :: post) fence).2[pre.length]?
      = some (advanceLayer (mlAdvance w pre fence).1 fence m).2 := by
  rw [mlAdvance_append]
  simp only [mlAdvance]
  rw [List.getElem?_append_right (by rw [mlAdvance_length])]
  simp [mlAdvance_length]

theorem mlAdvance_end_posNext (w : World) (fence : Region) (pre : List MovLayer) (m : MovLayer)
    (post : List MovLayer) (hpost : ∀ n ∈ post, n.layer ≠ m.layer) :
    ((mlAdvance w (pre ++ m :: post) fence).1.heap m.layer).posNext
      = ((mlAdvance w (pre ++ [m]) fence).1.heap m.layer).posNext := by
  have e : pre ++ m :: post = (pre ++ [m]) ++ post := by simp
  rw [e, mlAdvance_append _ fence (pre ++ [m]) post]
  simp only []
  rw [mlAdvance_heap_other _ fence post m.layer hpost]

theorem vec2Sub_axes (p v : Vec2) (a : Fin 2) : (vec2Sub p v).axes a = p.axes a - v.axes a := by
  fin_cases a <;> simp [vec2Sub, Vec2.axes]

/-- One tick of a moving layer keeps it inside the fence: when the bounds of its shape are
centre plus and minus a half size and lie inside the fence at `posNext` and at
`posNext - velocity`, they do so at the stored `posNext` and at the stored `posNext`
minus the new velocity. -/
theorem advanceLayer_inside (w : World) (fence : Region) (m : MovLayer) (half : Vec2)
    (hshape : ∀ c, abShapeGetBounds (w.heap m.layer).abShape c = abRectGetBounds half c)
    (h0 : insideFence fence (w.heap m.layer).abShape (w.heap m.layer).posNext)
    (hm : insideFence fence (w.heap m.layer).abShape
      (vec2Sub (w.heap m.layer).posNext m.velocity)) :
    insideFence fence (w.heap m.layer).abShape (storedPos w fence m) ∧
    insideFence fence (w.heap m.layer).abShape
      (vec2Sub (storedPos w fence m) (advanceLayer w fence m).2.velocity) := by
  have key : ∀ a : Fin 2,
      (fence.topLeft.axes a
          ≤ (abShapeGetBounds (w.heap m.layer).abShape (storedPos w fence m)).topLeft.axes a ∧
        (abShapeGetBounds (w.heap m.layer).abShape (storedPos w fence m)).botRight.axes a
          ≤ fence.botRight.axes a) ∧
      (fence.topLeft.axes a
          ≤ (abShapeGetBounds (w.heap m.layer).abShape
              (vec2Sub (storedPos w fence m)
                (advanceLayer w fence m).2.velocity)).topLeft.axes a ∧
        (abShapeGetBounds (w.heap m.layer).abShape
              (vec2Sub (storedPos w fence m)
                (advanceLayer w fence m).2.velocity)).botRight.axes a
          ≤ fence.botRight.axes a) := by
    intro a
    have g0 := h0 a
    have gm := hm a
    have hv := advanceLayer_velocity w fence m a
    have hp := storedPos_axes w fence m a
    have hc := vec2Add_axes (w.heap m.layer).posNext m.velocity a
    have hs := vec2Sub_axes (w.heap m.layer).posNext m.velocity a
    have h3 := vec2Sub_axes (storedPos w fence m) (advanceLayer w fence m).2.velocity a
    rw [hshape] at g0 gm
    rw [hshape, hshape]
    obtain ⟨t1, b1⟩ := abRectGetBounds_axes half
      (vec2Add (w.heap m.layer).posNext m.velocity) a
    obtain ⟨t0, b0⟩ := abRectGetBounds_axes half (w.heap m.layer).posNext a
    obtain ⟨tm, bm⟩ := abRectGetBounds_axes half
      (vec2Sub (w.heap m.layer).posNext m.velocity) a
    obtain ⟨t2, b2⟩ := abRectGetBounds_axes half (storedPos w fence m) a
    obtain ⟨t3, b3⟩ := abRectGetBounds_axes half
      (vec2Sub (storedPos w fence m) (advanceLayer w fence m).2.velocity) a
    rw [t0, b0] at g0
    rw [tm, bm, hs] at gm
    rw [t2, b2, t3, b3, h3]
    by_cases hf : fires fence (candidateBounds w m) w a
    · rw [if_pos hf] at hp hv
      rw [hp, hv]
      omega
    · rw [if_neg hf] at hp hv
      rw [hp, hv]
      have hn1 : ¬ ((candidateBounds w m).topLeft.axes a < fence.topLeft.axes a) :=
        fun h => hf (Or.inl h)
      have hn2 : ¬ ((candidateBounds w m).botRight.axes a > fence.botRight.axes a) :=
        fun h => hf (Or.inr (Or.inl h))
      unfold candidateBounds at hn1 hn2
      rw [hshape, t1, hc] at hn1
      rw [hshape, b1, hc] at hn2
      clear hf hp hv
      omega
  exact ⟨fun a => (key a).1, fun a => (key a).2⟩

/-- C3. Reflection law.  For the moving layer `m` at any place of the list, with `p` its
`posNext` and `v` its velocity when its turn comes: when the candidate bounds breach a
fence edge on axis `A`, the velocity of `m` after the call is `-v[A]`, of the opposite
sign.  For a shape whose bounds are its centre plus and minus a fixed half size, and a
layer that starts the tick on the legal side of the breached edge, the velocity changes
sign strictly and the bounds at the `posNext` stored for the layer are on the legal side
of that edge.  Being inside the fence is kept from tick to tick: when the bounds at `p`
and at `p - v` are inside the fence on axis `A`, so are the bounds at the stored
`posNext` and at the stored `posNext` minus the new velocity (`program_ballInside` carries
this through every run of the program from its start, so the ball starts every tick on
the legal side).  The stored position is the one at the end of the call when no later
entry points to the same layer. -/
theorem reflection_law (w : World) (fence : Region) (pre : List MovLayer) (m : MovLayer)
    (post : List MovLayer) (A : Fin 2) :
    ∃ m1 : MovLayer,
      (mlAdvance w (pre ++ m :: post) fence).2[pre.length]? = some m1 ∧
      (let w0 := (mlAdvance w pre fence).1
       let w1 := (mlAdvance w (pre ++ [m]) fence).1
       let wEnd := (mlAdvance w (pre ++ m :: post) fence).1
       let p := (w0.heap m.layer).posNext
       let v := m.velocity
       let shape := (w.heap m.layer).abShape
       let B := abShapeGetBounds shape (vec2Add p v)
       let B0 := abShapeGetBounds shape p
       let Bm := abShapeGetBounds shape (vec2Sub p v)
       let B1 := abShapeGetBounds shape (w1.heap m.layer).posNext
       let B1m := abShapeGetBounds shape (vec2Sub (w1.heap m.layer).posNext m1.velocity)
       ((B.topLeft.axes A < fence.topLeft.axes A ∨ B.botRight.axes A > fence.botRight.axes A) →
          m1.velocity.axes A = - v.axes A ∧
          Int.sign (m1.velocity.axes A) = - Int.sign (v.axes A)) ∧
       (∀ half : Vec2, (∀ c, abShapeGetBounds shape c = abRectGetBounds half c) →
          (B.topLeft.axes A < fence.topLeft.axes A → fence.topLeft.axes A ≤ B0.topLeft.axes A →
            v.axes A < 0 ∧ 0 < m1.velocity.axes A ∧
            fence.topLeft.axes A ≤ B1.topLeft.axes A) ∧
          (B.botRight.axes A > fence.botRight.axes A →
            B0.botRight.axes A ≤ fence.botRight.axes A →
            0 < v.axes A ∧ m1.velocity.axes A < 0 ∧
            B1.botRight.axes A ≤ fence.botRight.axes A) ∧
          (fence.topLeft.axes A ≤ B0.topLeft.axes A ∧
              B0.botRight.axes A ≤ fence.botRight.axes A →
            fence.topLeft.axes A ≤ Bm.topLeft.axes A ∧
              Bm.botRight.axes A ≤ fence.botRight.axes A →
            (fence.topLeft.axes A ≤ B1.topLeft.axes A ∧
              B1.botRight.axes A ≤ fence.botRight.axes A) ∧
            (fence.topLeft.axes A ≤ B1m.topLeft.axes A ∧
              B1m.botRight.axes A ≤ fence.botRight.axes A))) ∧
       ((∀ n ∈ post, n.layer ≠ m.layer) →
          (wEnd.heap m.layer).posNext = (w1.heap m.layer).posNext)) := by
  refine ⟨_, mlAdvance_node w fence pre m post, ?_⟩
  have hs : ((mlAdvance w pre fence).1.heap m.layer).abShape = (w.heap m.layer).abShape :=
    (mlAdvance_frame w fence pre m.layer).2.2.1
  have hc := vec2Add_axes ((mlAdvance w pre fence).1.heap m.layer).posNext m.velocity A
  have hv := advanceLayer_velocity (mlAdvance w pre fence).1 fence m A
  have hp := storedPos_axes (mlAdvance w pre fence).1 fence m A
  have hcb : candidateBounds (mlAdvance w pre fence).1 m
      = abShapeGetBounds (w.heap m.layer).abShape
          (vec2Add ((mlAdvance w pre fence).1.heap m.layer).posNext m.velocity) := by
    unfold candidateBounds
    rw [hs]
  rw [hcb] at hv hp
  simp only []
  rw [mlAdvance_stored]
  refine ⟨?_, ?_, ?_⟩
  · intro hbr
    have hf : fires fence (abShapeGetBounds (w.heap m.layer).abShape
        (vec2Add ((mlAdvance w pre fence).1.heap m.layer).posNext m.velocity))
        (mlAdvance w pre fence).1 A := by
      rcases hbr with h | h
      · exact Or.inl h
      · exact Or.inr (Or.inl h)
    rw [hv, if_pos hf]
    exact ⟨rfl, Int.sign_neg _⟩
  · intro half hshape
    rw [hshape] at hv hp
    rw [hshape, hshape, hshape, hshape, hshape]
    obtain ⟨t1, b1⟩ := abRectGetBounds_axes half
      (vec2Add ((mlAdvance w pre fence).1.heap m.layer).posNext m.velocity) A
    obtain ⟨t0, b0⟩ := abRectGetBounds_axes half
      ((mlAdvance w pre fence).1.heap m.layer).posNext A
    obtain ⟨tm, bm⟩ := abRectGetBounds_axes half
      (vec2Sub ((mlAdvance w pre fence).1.heap m.layer).posNext m.velocity) A
    obtain ⟨t2, b2⟩ := abRectGetBounds_axes half
      (storedPos (mlAdvance w pre fence).1 fence m) A
    obtain ⟨t3, b3⟩ := abRectGetBounds_axes half
      (vec2Sub (storedPos (mlAdvance w pre fence).1 fence m)
        (advanceLayer (mlAdvance w pre fence).1 fence m).2.velocity) A
    have hm := vec2Sub_axes ((mlAdvance w pre fence).1.heap m.layer).posNext m.velocity A
    have h3 := vec2Sub_axes (storedPos (mlAdvance w pre fence).1 fence m)
      (advanceLayer (mlAdvance w pre fence).1 fence m).2.velocity A
    rw [t1, b1, t0, b0, tm, bm, t2, b2, t3, b3, hm, h3, hc]
    refine ⟨?_, ?_, ?_⟩
    · intro hbr hlegal
      have hf : fires fence (abRectGetBounds half
          (vec2Add ((mlAdvance w pre fence).1.heap m.layer).posNext m.velocity))
          (mlAdvance w pre fence).1 A := Or.inl (by rw [t1, hc]; exact hbr)
      rw [if_pos hf] at hp hv
      rw [hp, hv]
      omega
    · intro hbr hlegal
      have hf : fires fence (abRectGetBounds half
          (vec2Add ((mlAdvance w pre fence).1.heap m.layer).posNext m.velocity))
          (mlAdvance w pre fence).1 A := Or.inr (Or.inl (by rw [b1, hc]; exact hbr))
      rw [if_pos hf] at hp hv
      rw [hp, hv]
      omega
    · intro hin0 hinm
      by_cases hf : fires fence (abRectGetBounds half
          (vec2Add ((mlAdvance w pre fence).1.heap m.layer).posNext m.velocity))
          (mlAdvance w pre fence).1 A
      · rw [if_pos hf] at hp hv
        rw [hp, hv]
        omega
      · rw [if_neg hf] at hp hv
        rw [hp, hv]
        have hn1 : ¬ ((abRectGetBounds half
            (vec2Add ((mlAdvance w pre fence).1.heap m.layer).posNext m.velocity)).topLeft.axes A
              < fence.topLeft.axes A) := fun h => hf (Or.inl h)
        have hn2 : ¬ ((abRectGetBounds half
            (vec2Add ((mlAdvance w pre fence).1.heap m.layer).posNext m.velocity)).botRight.axes A
              > fence.botRight.axes A) := fun h => hf (Or.inr (Or.inl h))
        rw [t1, hc] at hn1
        rw [b1, hc] at hn2
        omega
  · intro hpost
    rw [mlAdvance_end_posNext w fence pre m post hpost, mlAdvance_stored]

/-- Witness of C3: the ball of the program after 13 ticks from (74,85) with velocity
`(3,3)`: `posNext = (113,124)`.  The candidate bounds 113..119 breach the right edge of
the fence and the ball is sent back to bounds 107..113 on axis 0. -/
theorem reflection_law_witness :
    (abShapeGetBounds ball3
        ((mlAdvance (gameWorld ⟨110, 121⟩ ⟨113, 124⟩ ⟨15, 80⟩) [ballNode ⟨3, 3⟩, paddleNode]
            programFence).1.heap layer0).posNext).botRight.axes 0
      ≤ programFence.botRight.axes 0 := by
  obtain ⟨_, _, _, h, hend⟩ := reflection_law (gameWorld ⟨110, 121⟩ ⟨113, 124⟩ ⟨15, 80⟩)
    programFence [] (ballNode ⟨3, 3⟩) [paddleNode] 0
  rw [show ((mlAdvance (gameWorld ⟨110, 121⟩ ⟨113, 124⟩ ⟨15, 80⟩)
      [ballNode ⟨3, 3⟩, paddleNode] programFence).1.heap layer0).posNext
      = ((mlAdvance (gameWorld ⟨110, 121⟩ ⟨113, 124⟩ ⟨15, 80⟩)
        ([] ++ [ballNode ⟨3, 3⟩]) programFence).1.heap layer0).posNext
    from hend (by decide)]
  exact ((h ⟨3, 3⟩ (fun _ => rfl)).2.1 (by decide) (by decide)).2.2

/-! ## Score and loss counters -/

theorem countAxes_congr (P Q : Fin 2 → Prop) [DecidablePred P] [DecidablePred Q]
    (h : ∀ a, P a ↔ Q a) : countAxes P = countAxes Q := by
  simp [countAxes, h]

theorem candidateBounds_other (w : World) (fence : Region) (n m : MovLayer)
    (h : m.layer ≠ n.layer) :
    candidateBounds (advanceLayer w fence n).1 m = candidateBounds w m := by
  unfold candidateBounds
  rw [advanceLayer_heap_other w fence n m.layer h]

theorem scoreEvent_other (w : World) (fence : Region) (n m : MovLayer)
    (h : m.layer ≠ n.layer) (a : Fin 2) :
    scoreEvent (advanceLayer w fence n).1 fence m a ↔ scoreEvent w fence m a := by
  unfold scoreEvent
  rw [candidateBounds_other w fence n m h,
    fires_congr fence _ (advanceLayer w fence n).1 w a
      (fun id => (advanceLayer_frame w fence n id).1)]

theorem lossEvent_other (w : World) (fence : Region) (n m : MovLayer)
    (h : m.layer ≠ n.layer) (a : Fin 2) :
    lossEvent (advanceLayer w fence n).1 fence m a ↔ lossEvent w fence m a := by
  unfold lossEvent
  rw [candidateBounds_other w fence n m h,
    fires_congr fence _ (advanceLayer w fence n).1 w a
      (fun id => (advanceLayer_frame w fence n id).1)]

theorem sum_countAxes_scoreEvent_other (w : World) (fence : Region) (n : MovLayer)
    (l : List MovLayer) (h : ∀ m ∈ l, m.layer ≠ n.layer) :
    (l.map fun m => countAxes (scoreEvent (advanceLayer w fence n).1 fence m)).sum
      = (l.map fun m => countAxes (scoreEvent w fence m)).sum := by
  induction l with
  | nil => rfl
  | cons m rest ih =>
    simp only [List.map_cons, List.sum_cons]
    rw [ih (fun k hk => h k (List.mem_cons_of_mem m hk)),
      countAxes_congr _ _ (scoreEvent_other w fence n m (h m (List.mem_cons_self m rest)))]

theorem scoreEvents_distinct (w : World) (fence : Region) (l : List MovLayer)
    (hd : (l.map MovLayer.layer).Nodup) :
    scoreEvents w fence l = (l.map fun m => countAxes (scoreEvent w fence m)).sum := by
  induction l generalizing w with
  | nil => rfl
  | cons n rest ih =>
    rw [List.map_cons, List.nodup_cons] at hd
    simp only [scoreEvents, List.map_cons, List.sum_cons]
    rw [ih _ hd.2, sum_countAxes_scoreEvent_other w fence n rest
      (fun m hm e => hd.1 (e ▸ List.mem_map_of_mem _ hm))]

theorem intValue_of_range (bits : Nat) (hb : 0 < bits) (x : Int)
    (hlo : intMin bits ≤ x) (hhi : x ≤ intMax bits) : intValue bits x = x := by
  obtain ⟨k, rfl⟩ : ∃ k, bits = k + 1 := ⟨bits - 1, by omega⟩
  simp only [intValue, intMin, intMax, Nat.add_sub_cancel] at *
  have h2 : (2 : Int) ^ (k + 1) = 2 ^ k + 2 ^ k := by
    rw [pow_succ]
    ring
  rw [Int.emod_eq_of_lt (by omega) (by omega)]
  ring

theorem intIncr_intValue (bits : Nat) (x : Int) :
    intIncr bits (intValue bits x) = intValue bits (x + 1) := by
  simp only [intIncr, intValue]
  congr 1
  have e : (x + 2 ^ (bits - 1)) % 2 ^ bits - 2 ^ (bits - 1) + 1 + 2 ^ (bits - 1)
      = (x + 2 ^ (bits - 1)) % 2 ^ bits + 1 := by ring
  rw [e, Int.emod_add_emod]
  congr 1
  ring

theorem iterate_intIncr (bits : Nat) (x : Int) (n : Nat) :
    Nat.iterate (intIncr bits) n (intValue bits x) = intValue bits (x + (n : Int)) := by
  induction n with
  | zero => simp
  | succ n ih =>
    rw [Function.iterate_succ_apply', ih, intIncr_intValue]
    congr 1
    push_cast
    ring

/-- C5, the claim fails: with `s = INT_MAX` the ball of the program bounces on the right
edge of the fence (`posNext = (113,124)`, velocity `(3,3)`, candidate bounds 113..119);
the `s++` of line 135 wraps and the `int s` holds `INT_MIN` after the call, less than
before.  Shown for an `int` of 16 bits and of 32 bits. -/
theorem score_wrap_counterexample :
    (worldOf (gameWorld ⟨110, 121⟩ ⟨113, 124⟩ ⟨15, 80⟩).heap (intMax 16) 0).s = 32767 ∧
    scoreHeld 16 (worldOf (gameWorld ⟨110, 121⟩ ⟨113, 124⟩ ⟨15, 80⟩).heap (intMax 16) 0)
        [ballNode ⟨3, 3⟩, paddleNode] programFence = -32768 ∧
    scoreHeld 16 (worldOf (gameWorld ⟨110, 121⟩ ⟨113, 124⟩ ⟨15, 80⟩).heap (intMax 16) 0)
        [ballNode ⟨3, 3⟩, paddleNode] programFence
      < (worldOf (gameWorld ⟨110, 121⟩ ⟨113, 124⟩ ⟨15, 80⟩).heap (intMax 16) 0).s ∧
    (worldOf (gameWorld ⟨110, 121⟩ ⟨113, 124⟩ ⟨15, 80⟩).heap (intMax 32) 0).s = 2147483647 ∧
    scoreHeld 32 (worldOf (gameWorld ⟨110, 121⟩ ⟨113, 124⟩ ⟨15, 80⟩).heap (intMax 32) 0)
        [ballNode ⟨3, 3⟩, paddleNode] programFence = -2147483648 ∧
    scoreHeld 32 (worldOf (gameWorld ⟨110, 121⟩ ⟨113, 124⟩ ⟨15, 80⟩).heap (intMax 32) 0)
        [ballNode ⟨3, 3⟩, paddleNode] programFence
      < (worldOf (gameWorld ⟨110, 121⟩ ⟨113, 124⟩ ⟨15, 80⟩).heap (intMax 32) 0).s := by
  decide

/-- C5 as amended.  The number of `s++` that one call of `mlAdvance` executes is the
number of pairs (moving layer, axis) for which the reflection condition of the axis fires
and the max edge of the candidate bounds on that axis is greater than the axis-0 max of
the fence and not greater than its axis-1 max, each moving layer being taken when its
turn comes, and in the state before the call when the entries point to pairwise distinct
layers; each pair adds exactly 1.  When `s` plus this number stays within the range of
`int`, the `int s` after the call is `s` plus this number and is not less than `s`.  In
general the `int s` after the call is what that many wrapping increments leave. -/
theorem mlAdvance_score (bits : Nat) (w : World) (fence : Region) (mls : List MovLayer) :
    (mlAdvance w mls fence).1.s = w.s + (scoreEvents w fence mls : Int) ∧
    ((mls.map MovLayer.layer).Nodup →
      scoreEvents w fence mls = (mls.map fun m => countAxes (scoreEvent w fence m)).sum) ∧
    (0 < bits → intMin bits ≤ w.s → w.s + (scoreEvents w fence mls : Int) ≤ intMax bits →
      scoreHeld bits w mls fence = w.s + (scoreEvents w fence mls : Int) ∧
      w.s ≤ scoreHeld bits w mls fence) ∧
    scoreHeld bits w mls fence
      = Nat.iterate (intIncr bits) (scoreEvents w fence mls) (intValue bits w.s) := by
  have h := mlAdvance_s w fence mls
  refine ⟨h, scoreEvents_distinct w fence mls, ?_, ?_⟩
  · intro hb hlo hhi
    have e : scoreHeld bits w mls fence = w.s + (scoreEvents w fence mls : Int) := by
      unfold scoreHeld
      rw [h]
      exact intValue_of_range bits hb _ (by omega) hhi
    exact ⟨e, by rw [e]; omega⟩
  · unfold scoreHeld
    rw [h, iterate_intIncr]

/-- Witness of C5 as amended: ball and paddle of the program, the ball bounces on the
right edge of the fence with `s = 0`; exactly one pair qualifies and the `int s` of 16
bits holds 1 after the call. -/
theorem mlAdvance_score_witness :
    scoreHeld 16 (gameWorld ⟨110, 121⟩ ⟨113, 124⟩ ⟨15, 80⟩) [ballNode ⟨3, 3⟩, paddleNode]
        programFence = 1 ∧
    (gameWorld ⟨110, 121⟩ ⟨113, 124⟩ ⟨15, 80⟩).s
      ≤ scoreHeld 16 (gameWorld ⟨110, 121⟩ ⟨113, 124⟩ ⟨15, 80⟩)
          [ballNode ⟨3, 3⟩, paddleNode] programFence :=
  ⟨((mlAdvance_score 16 (gameWorld ⟨110, 121⟩ ⟨113, 124⟩ ⟨15, 80⟩) programFence
      [ballNode ⟨3, 3⟩, paddleNode]).2.2.1 (by decide) (by decide) (by decide)).1.trans
        (by decide),
   ((mlAdvance_score 16 (gameWorld ⟨110, 121⟩ ⟨113, 124⟩ ⟨15, 80⟩) programFence
      [ballNode ⟨3, 3⟩, paddleNode]).2.2.1 (by decide) (by decide) (by decide)).2⟩

theorem lossEvent_iff_minBreach (w : World) (fence : Region) (m : MovLayer) (a : Fin 2)
    (hf : fence.topLeft.axes 1 = fence.topLeft.axes 0) :
    lossEvent w fence m a ↔ minBreachEvent w fence m a := by
  have ha : fence.topLeft.axes a = fence.topLeft.axes 0 := by
    fin_cases a
    · rfl
    · exact hf
  unfold lossEvent minBreachEvent
  rw [ha]

theorem lossEvents_eq_minBreach (w : World) (fence : Region) (l : List MovLayer)
    (hf : fence.topLeft.axes 1 = fence.topLeft.axes 0) :
    lossEvents w fence l = minBreachEvents w fence l := by
  induction l generalizing w with
  | nil => rfl
  | cons m rest ih =>
    simp only [lossEvents, minBreachEvents]
    rw [ih, countAxes_congr _ _ (fun a => lossEvent_iff_minBreach w fence m a hf)]

/-- C6. Loss condition of `mlAdvance`, for a fence whose min edge is the same on both
axes, as the fence (10,10)-(118,150) that the program passes.  In the round of an axis
whose reflection condition fires, `gameOver` grows by exactly 1 when the axis-0 min edge
of the candidate bounds lies below the axis-0 min edge of the fence, and keeps its value
otherwise; a round whose condition does not fire keeps `gameOver`.  Nothing else changes
`gameOver`: after the call it is its value before plus the number of pairs (moving layer,
axis) whose round fires with that min-edge breach. -/
theorem mlAdvance_loss (w : World) (fence : Region) (mls : List MovLayer)
    (hf : fence.topLeft.axes 1 = fence.topLeft.axes 0) :
    (∀ (B : Region) (a : Fin 2) (st : AxisState),
      (fires fence B st.w a →
        (B.topLeft.axes 0 < fence.topLeft.axes 0 →
          (axisBody fence B a st).w.gameOver = st.w.gameOver + 1) ∧
        (¬ (B.topLeft.axes 0 < fence.topLeft.axes 0) →
          (axisBody fence B a st).w.gameOver = st.w.gameOver)) ∧
      (¬ fires fence B st.w a → (axisBody fence B a st).w.gameOver = st.w.gameOver)) ∧
    (∀ m : MovLayer,
      (advanceLayer w fence m).1.gameOver
        = w.gameOver + (countAxes (minBreachEvent w fence m) : Int)) ∧
    (mlAdvance w mls fence).1.gameOver = w.gameOver + (minBreachEvents w fence mls : Int) := by
  refine ⟨?_, ?_, ?_⟩
  · intro B a st
    have ha : fence.topLeft.axes a = fence.topLeft.axes 0 := by
      fin_cases a
      · rfl
      · exact hf
    rw [axisBody_eq, ha]
    refine ⟨fun hfire => ⟨fun hb => ?_, fun hb => ?_⟩, fun hfire => ?_⟩
    · simp only [hfire, hb, and_self, if_true]
    · simp only [hfire, hb, and_false, if_false, add_zero]
    · simp only [hfire, false_and, if_false, add_zero]
  · intro m
    rw [advanceLayer_gameOver,
      countAxes_congr _ _ (fun a => lossEvent_iff_minBreach w fence m a hf)]
  · rw [mlAdvance_gameOver, lossEvents_eq_minBreach w fence mls hf]

/-- Witness of C6: the ball of the program at `posNext = (14,82)` with velocity `(-3,-3)`
and the paddle away at (15,130): the candidate bounds 8..14 by 76..82 breach the left
edge only, one pair qualifies and `gameOver` goes from 0 to 1. -/
theorem mlAdvance_loss_witness :
    (mlAdvance (gameWorld ⟨17, 85⟩ ⟨14, 82⟩ ⟨15, 130⟩) [ballNode ⟨-3, -3⟩, paddleNode]
        programFence).1.gameOver = 1 :=
  ((mlAdvance_loss (gameWorld ⟨17, 85⟩ ⟨14, 82⟩ ⟨15, 130⟩) programFence
    [ballNode ⟨-3, -3⟩, paddleNode] rfl).2.2).trans (by decide)

/-- C7, evaluation of the code at the failing input.  Program fence, paddle at (15,130),
ball inside the paddle rectangle at (13,125) with velocity `(-3,3)`: the candidate bounds
are 7..13 by 125..131.  The axis-1 round fires on the paddle contact and passes both the
loss test (7 < 10) and the score test (118 < 131 ≤ 150); the one tick of the ball takes
`gameOver` from 0 to 2 and `s` from 0 to 1. -/
theorem mlAdvance_loss_and_score :
    lossEvent (gameWorld ⟨13, 125⟩ ⟨13, 125⟩ ⟨15, 130⟩) programFence (ballNode ⟨-3, 3⟩) 1 ∧
    scoreEvent (gameWorld ⟨13, 125⟩ ⟨13, 125⟩ ⟨15, 130⟩) programFence (ballNode ⟨-3, 3⟩) 1 ∧
    (gameWorld ⟨13, 125⟩ ⟨13, 125⟩ ⟨15, 130⟩).gameOver = 0 ∧
    (gameWorld ⟨13, 125⟩ ⟨13, 125⟩ ⟨15, 130⟩).s = 0 ∧
    (mlAdvance (gameWorld ⟨13, 125⟩ ⟨13, 125⟩ ⟨15, 130⟩) [ballNode ⟨-3, 3⟩]
        programFence).1.gameOver = 2 ∧
    (mlAdvance (gameWorld ⟨13, 125⟩ ⟨13, 125⟩ ⟨15, 130⟩) [ballNode ⟨-3, 3⟩]
        programFence).1.s = 1 := by
  decide

theorem candidateBounds_heap (w1 w2 : World) (m : MovLayer) (h : w1.heap = w2.heap) :
    candidateBounds w1 m = candidateBounds w2 m := by
  unfold candidateBounds
  rw [h]

theorem scoreEvent_heap (w1 w2 : World) (fence : Region) (m : MovLayer) (a : Fin 2)
    (h : w1.heap = w2.heap) : scoreEvent w1 fence m a ↔ scoreEvent w2 fence m a := by
  unfold scoreEvent
  rw [candidateBounds_heap w1 w2 m h, fires_heap fence _ w1 w2 a h]

theorem lossEvent_heap (w1 w2 : World) (fence : Region) (m : MovLayer) (a : Fin 2)
    (h : w1.heap = w2.heap) : lossEvent w1 fence m a ↔ lossEvent w2 fence m a := by
  unfold lossEvent
  rw [candidateBounds_heap w1 w2 m h, fires_heap fence _ w1 w2 a h]

theorem storedPos_heap (w1 w2 : World) (fence : Region) (m : MovLayer)
    (h : w1.heap = w2.heap) : storedPos w1 fence m = storedPos w2 fence m := by
  unfold storedPos
  simp only [candidateBounds_heap w1 w2 m h, h, fires_heap fence _ w1 w2 _ h]

theorem advanceLayer_heap_congr (w1 w2 : World) (fence : Region) (m : MovLayer)
    (h : w1.heap = w2.heap) :
    (advanceLayer w1 fence m).1.heap = (advanceLayer w2 fence m).1.heap := by
  rw [advanceLayer_heap, advanceLayer_heap, storedPos_heap w1 w2 fence m h, h]

theorem scoreEvents_heap (w1 w2 : World) (fence : Region) (l : List MovLayer)
    (h : w1.heap = w2.heap) : scoreEvents w1 fence l = scoreEvents w2 fence l := by
  induction l generalizing w1 w2 with
  | nil => rfl
  | cons m rest ih =>
    simp only [scoreEvents]
    rw [ih _ _ (advanceLayer_heap_congr w1 w2 fence m h),
      countAxes_congr _ _ (fun a => scoreEvent_heap w1 w2 fence m a h)]

theorem lossEvents_heap (w1 w2 : World) (fence : Region) (l : List MovLayer)
    (h : w1.heap = w2.heap) : lossEvents w1 fence l = lossEvents w2 fence l := by
  induction l generalizing w1 w2 with
  | nil => rfl
  | cons m rest ih =>
    simp only [lossEvents]
    rw [ih _ _ (advanceLayer_heap_congr w1 w2 fence m h),
      countAxes_congr _ _ (fun a => lossEvent_heap w1 w2 fence m a h)]

/-- C8, the claim fails: in a state that is already `Won` (`s = 10`) the ball bounces on
the right edge of the fence and the call raises `s` to 11. -/
theorem terminal_exclusivity_counterexample :
    terminalCheck (worldOf (gameWorld ⟨74, 85⟩ ⟨114, 80⟩ ⟨15, 80⟩).heap 10 0)
      = GameStatus.Won ∧
    (mlAdvance (worldOf (gameWorld ⟨74, 85⟩ ⟨114, 80⟩ ⟨15, 80⟩).heap 10 0) [ballNode ⟨3, 0⟩]
        programFence).1.s = 11 := by
  decide

/-- C8 as amended.  `mlAdvance` has no gate on the state of the game: in every state,
terminal or not, a call leaves `s` unchanged exactly when it holds no qualifying score
event, and leaves `gameOver` unchanged exactly when no pair (moving layer, axis) passes
the loss test; otherwise the counters grow by the numbers of these pairs.  These numbers
are the same whatever the values of `s` and `gameOver` before the call. -/
theorem mlAdvance_counters_no_gate (w : World) (fence : Region) (mls : List MovLayer) :
    ((mlAdvance w mls fence).1.s = w.s ↔ scoreEvents w fence mls = 0) ∧
    ((mlAdvance w mls fence).1.gameOver = w.gameOver ↔ lossEvents w fence mls = 0) ∧
    (mlAdvance w mls fence).1.s = w.s + (scoreEvents w fence mls : Int) ∧
    (mlAdvance w mls fence).1.gameOver = w.gameOver + (lossEvents w fence mls : Int) ∧
    (∀ s1 g1 : Int,
      scoreEvents { w with s := s1, gameOver := g1 } fence mls = scoreEvents w fence mls ∧
      lossEvents { w with s := s1, gameOver := g1 } fence mls = lossEvents w fence mls) := by
  have h1 := mlAdvance_s w fence mls
  have h2 := mlAdvance_gameOver w fence mls
  refine ⟨?_, ?_, h1, h2, fun s1 g1 => ⟨?_, ?_⟩⟩
  · rw [h1]
    omega
  · rw [h2]
    omega
  · exact scoreEvents_heap _ w fence mls rfl
  · exact lossEvents_heap _ w fence mls rfl

/-- C9, evaluation of the code at the failing input.  The ball leaves through the top-left
corner of the program fence (candidate bounds 8..14 on both axes): both axis rounds pass
the loss test and one call takes `gameOver` from 0 to 2.  The terminal check tests
`gameOver == 1` and `s == 10`: with `gameOver = 2` it answers `Running`, and so it does
with a score of 11. -/
theorem terminalCheck_overshoot :
    (gameWorld ⟨14, 14⟩ ⟨14, 14⟩ ⟨15, 80⟩).gameOver = 0 ∧
    (mlAdvance (gameWorld ⟨14, 14⟩ ⟨14, 14⟩ ⟨15, 80⟩) [ballNode ⟨-3, -3⟩]
        programFence).1.gameOver = 2 ∧
    terminalCheck (mlAdvance (gameWorld ⟨14, 14⟩ ⟨14, 14⟩ ⟨15, 80⟩) [ballNode ⟨-3, -3⟩]
        programFence).1 = GameStatus.Running ∧
    terminalCheck (worldOf (gameWorld ⟨74, 85⟩ ⟨114, 80⟩ ⟨15, 80⟩).heap 11 0)
      = GameStatus.Running := by
  decide

/-! ## Scenarios -/

/-- C10. Scenario A.  Program fence (10,10)-(118,150); a moving layer whose bounds are its
centre plus and minus 3, with `posNext` at centre x = 114 (right edge 117, one unit inside
the fence max 118), velocity `(3,0)`, candidate bounds inside the fence on axis 1, and no
paddle contact.  One call of `mlAdvance` on it leaves the velocity `(-3,0)`, raises `s` by
exactly 1 and leaves `gameOver` unchanged. -/
theorem scenario_A_right_edge (w : World) (m : MovLayer) (y : Int)
    (hshape : ∀ c, abShapeGetBounds (w.heap m.layer).abShape c = abRectGetBounds ⟨3, 3⟩ c)
    (hpos : (w.heap m.layer).posNext = ⟨114, y⟩)
    (hvel : m.velocity = ⟨3, 0⟩)
    (hin1 : programFence.topLeft.axes 1 ≤ (candidateBounds w m).topLeft.axes 1)
    (hin2 : (candidateBounds w m).botRight.axes 1 ≤ programFence.botRight.axes 1)
    (hcontact : ¬ paddleContact w) :
    (mlAdvance w [m] programFence).2 = [{ layer := m.layer, velocity := ⟨-3, 0⟩ }] ∧
    (mlAdvance w [m] programFence).1.s = w.s + 1 ∧
    (mlAdvance w [m] programFence).1.gameOver = w.gameOver := by
  have hB : candidateBounds w m = abRectGetBounds ⟨3, 3⟩ (vec2Add ⟨114, y⟩ ⟨3, 0⟩) := by
    unfold candidateBounds
    rw [hshape, hpos, hvel]
  rw [hB] at hin1 hin2
  have hf0 : fires programFence (candidateBounds w m) w 0 := by
    rw [hB]
    exact Or.inr (Or.inl (by
      simp [abRectGetBounds, vec2Add, Vec2.axes, programFence]))
  have hf1 : ¬ fires programFence (candidateBounds w m) w 1 := by
    rw [hB]
    rintro (h | h | h)
    · exact absurd hin1 (not_le.mpr h)
    · exact absurd hin2 (not_le.mpr h)
    · exact hcontact h
  have hs0 : scoreEvent w programFence m 0 := by
    refine ⟨hf0, ?_, ?_⟩ <;> rw [hB] <;>
      simp [abRectGetBounds, vec2Add, Vec2.axes, programFence]
  have hs1 : ¬ scoreEvent w programFence m 1 := fun h => hf1 h.1
  have hl0 : ¬ lossEvent w programFence m 0 := by
    rintro ⟨_, h⟩
    rw [hB] at h
    simp [abRectGetBounds, vec2Add, vec2Sub, Vec2.axes, programFence] at h
  have hl1 : ¬ lossEvent w programFence m 1 := fun h => hf1 h.1
  rw [mlAdvance_single]
  refine ⟨?_, ?_, ?_⟩
  · have e0 := advanceLayer_velocity w programFence m 0
    have e1 := advanceLayer_velocity w programFence m 1
    rw [if_pos hf0, hvel] at e0
    rw [if_neg hf1, hvel] at e1
    have hv : (advanceLayer w programFence m).2.velocity = ⟨-3, 0⟩ :=
      Vec2.eq_of_axes _ _ e0 e1
    have hl := advanceLayer_layer w programFence m
    cases hr : (advanceLayer w programFence m).2 with
    | mk l v =>
      rw [hr] at hv hl
      simp only at hv hl
      simp [hv, hl]
  · simp only []
    rw [advanceLayer_s]
    simp [countAxes, hs0, hs1]
  · simp only []
    rw [advanceLayer_gameOver]
    simp [countAxes, hl0, hl1]

/-- Witness of C10: `posNext = (114,80)`, paddle at (15,80), ball `pos` at (74,85). -/
theorem scenario_A_right_edge_witness :
    (mlAdvance (gameWorld ⟨74, 85⟩ ⟨114, 80⟩ ⟨15, 80⟩) [ballNode ⟨3, 0⟩] programFence).2
        = [{ layer := layer0, velocity := ⟨-3, 0⟩ }] ∧
    (mlAdvance (gameWorld ⟨74, 85⟩ ⟨114, 80⟩ ⟨15, 80⟩) [ballNode ⟨3, 0⟩] programFence).1.s
        = 0 + 1 ∧
    (mlAdvance (gameWorld ⟨74, 85⟩ ⟨114, 80⟩ ⟨15, 80⟩) [ballNode ⟨3, 0⟩]
        programFence).1.gameOver = 0 :=
  scenario_A_right_edge (gameWorld ⟨74, 85⟩ ⟨114, 80⟩ ⟨15, 80⟩) (ballNode ⟨3, 0⟩) 80
    (fun _ => rfl) rfl rfl (by decide) (by decide) (by decide)

/-- C11. Scenario B.  Program fence (10,10)-(118,150); a moving layer whose bounds are its
centre plus and minus 3, with `posNext` at centre x = 14 (left edge 11, one unit inside
the fence min 10), velocity `(-3,0)`, candidate bounds inside the fence on axis 1, no
paddle contact and `gameOver = 0`.  One call of `mlAdvance` on it leaves `gameOver = 1`
and `s` unchanged, and the terminal check of the main loop answers `Lost`. -/
theorem scenario_B_left_edge (w : World) (m : MovLayer) (y : Int)
    (hshape : ∀ c, abShapeGetBounds (w.heap m.layer).abShape c = abRectGetBounds ⟨3, 3⟩ c)
    (hpos : (w.heap m.layer).posNext = ⟨14, y⟩)
    (hvel : m.velocity = ⟨-3, 0⟩)
    (hin1 : programFence.topLeft.axes 1 ≤ (candidateBounds w m).topLeft.axes 1)
    (hin2 : (candidateBounds w m).botRight.axes 1 ≤ programFence.botRight.axes 1)
    (hcontact : ¬ paddleContact w)
    (hover : w.gameOver = 0) :
    (mlAdvance w [m] programFence).1.gameOver = 1 ∧
    (mlAdvance w [m] programFence).1.s = w.s ∧
    terminalCheck (mlAdvance w [m] programFence).1 = GameStatus.Lost := by
  have hB : candidateBounds w m = abRectGetBounds ⟨3, 3⟩ (vec2Add ⟨14, y⟩ ⟨-3, 0⟩) := by
    unfold candidateBounds
    rw [hshape, hpos, hvel]
  rw [hB] at hin1 hin2
  have hf0 : fires programFence (candidateBounds w m) w 0 := by
    rw [hB]
    exact Or.inl (by
      simp [abRectGetBounds, vec2Add, vec2Sub, Vec2.axes, programFence])
  have hf1 : ¬ fires programFence (candidateBounds w m) w 1 := by
    rw [hB]
    rintro (h | h | h)
    · exact absurd hin1 (not_le.mpr h)
    · exact absurd hin2 (not_le.mpr h)
    · exact hcontact h
  have hl0 : lossEvent w programFence m 0 := by
    refine ⟨hf0, ?_⟩
    rw [hB]
    simp [abRectGetBounds, vec2Add, vec2Sub, Vec2.axes, programFence]
  have hl1 : ¬ lossEvent w programFence m 1 := fun h => hf1 h.1
  have hs0 : ¬ scoreEvent w programFence m 0 := by
    rintro ⟨_, h, _⟩
    rw [hB] at h
    simp [abRectGetBounds, vec2Add, vec2Sub, Vec2.axes, programFence] at h
  have hs1 : ¬ scoreEvent w programFence m 1 := fun h => hf1 h.1
  have hg : (mlAdvance w [m] programFence).1.gameOver = 1 := by
    rw [mlAdvance_single]
    simp only []
    rw [advanceLayer_gameOver, hover]
    simp [countAxes, hl0, hl1]
  refine ⟨hg, ?_, ?_⟩
  · rw [mlAdvance_single]
    simp only []
    rw [advanceLayer_s]
    simp [countAxes, hs0, hs1]
  · unfold terminalCheck
    rw [if_pos hg]

/-- Witness of C11: `posNext = (14,80)`, paddle at (15,130), ball `pos` at (74,85). -/
theorem scenario_B_left_edge_witness :
    (mlAdvance (gameWorld ⟨74, 85⟩ ⟨14, 80⟩ ⟨15, 130⟩) [ballNode ⟨-3, 0⟩]
        programFence).1.gameOver = 1 ∧
    (mlAdvance (gameWorld ⟨74, 85⟩ ⟨14, 80⟩ ⟨15, 130⟩) [ballNode ⟨-3, 0⟩] programFence).1.s
        = 0 ∧
    terminalCheck (mlAdvance (gameWorld ⟨74, 85⟩ ⟨14, 80⟩ ⟨15, 130⟩) [ballNode ⟨-3, 0⟩]
        programFence).1 = GameStatus.Lost :=
  scenario_B_left_edge (gameWorld ⟨74, 85⟩ ⟨14, 80⟩ ⟨15, 130⟩) (ballNode ⟨-3, 0⟩) 80
    (fun _ => rfl) rfl rfl (by decide) (by decide) (by decide) rfl

/-! ## movePaddle -/

theorem and_one_shiftLeft_eq_zero (n k : Nat) : n &&& (1 <<< k) = 0 ↔ n.testBit k = false := by
  rw [Nat.one_shiftLeft]
  constructor
  · intro h
    have h2 := congrArg (fun x => x.testBit k) h
    simpa [Nat.testBit_and, Nat.testBit_two_pow_self] using h2
  · intro h
    apply Nat.eq_of_testBit_eq
    intro i
    by_cases hk : k = i
    · subst hk
      simp [Nat.testBit_and, h]
    · simp [Nat.testBit_and, Nat.testBit_two_pow, hk]

theorem abRectCheck_iff (half c px : Vec2) :
    abRectCheck half c px = true ↔ (|px.x - c.x| ≤ half.x ∧ |px.y - c.y| ≤ half.y) := by
  simp only [abRectCheck, abRectGetBounds, vec2Add, vec2Sub, decide_eq_true_eq, abs_le]
  constructor
  · rintro ⟨h1, h2, h3, h4⟩
    exact ⟨⟨by omega, by omega⟩, ⟨by omega, by omega⟩⟩
  · rintro ⟨⟨h1, h2⟩, ⟨h3, h4⟩⟩
    exact ⟨by omega, by omega, by omega, by omega⟩

theorem abRectCheck_eq_false_iff (half c px : Vec2) :
    abRectCheck half c px = false ↔ ¬ (|px.x - c.x| ≤ half.x ∧ |px.y - c.y| ≤ half.y) := by
  rw [← abRectCheck_iff, Bool.not_eq_true]

theorem changeState_zero (w : World) (lastPos : Vec2) :
    (changeState w lastPos 0).heap
      = Function.update w.heap layer1
          { w.heap layer1 with
            posNext := { x := (w.heap layer1).posNext.x, y := (w.heap layer1).posNext.y + 5 },
            posLast := lastPos } := by
  simp [changeState, Vec2.setAxis, Vec2.axes]

theorem changeState_one (w : World) (lastPos : Vec2) :
    (changeState w lastPos 1).heap
      = Function.update w.heap layer1
          { w.heap layer1 with
            posNext := { x := (w.heap layer1).posNext.x, y := (w.heap layer1).posNext.y - 5 },
            posLast := lastPos } := by
  simp [changeState, Vec2.setAxis, Vec2.axes]

/-- C12. Paddle step of `movePaddle`, containment taken as `|point - centre| ≤ (3,20)`.
With `p` the `posNext` of the paddle: when bit 3 of the switches is clear, bit 0 is set
and the rectangle at `p` does not contain (15,149), afterwards `posNext = (p.x, p.y + 5)`
and `posLast = p`; when bit 0 is clear, bit 3 is set and the rectangle at `p` does not
contain (15,11), afterwards `posNext = (p.x, p.y - 5)` and `posLast = p`; when both bits
are set nothing changes. -/
theorem movePaddle_step (w : World) (switches : Nat) :
    (switches.testBit 3 = false → switches.testBit 0 = true →
      ¬ (|15 - (w.heap layer1).posNext.x| ≤ 3 ∧ |149 - (w.heap layer1).posNext.y| ≤ 20) →
      ((movePaddle w switches).heap layer1).posNext
          = { x := (w.heap layer1).posNext.x, y := (w.heap layer1).posNext.y + 5 } ∧
      ((movePaddle w switches).heap layer1).posLast = (w.heap layer1).posNext) ∧
    (switches.testBit 0 = false → switches.testBit 3 = true →
      ¬ (|15 - (w.heap layer1).posNext.x| ≤ 3 ∧ |11 - (w.heap layer1).posNext.y| ≤ 20) →
      ((movePaddle w switches).heap layer1).posNext
          = { x := (w.heap layer1).posNext.x, y := (w.heap layer1).posNext.y - 5 } ∧
      ((movePaddle w switches).heap layer1).posLast = (w.heap layer1).posNext) ∧
    (switches.testBit 3 = true → switches.testBit 0 = true → movePaddle w switches = w) := by
  refine ⟨?_, ?_, ?_⟩
  · intro h3 h0 hc
    have e3 := (and_one_shiftLeft_eq_zero switches 3).mpr h3
    have e0 : ¬ (switches &&& (1 <<< 0) = 0) := fun e => by
      rw [(and_one_shiftLeft_eq_zero switches 0).mp e] at h0
      exact Bool.false_ne_true h0
    have hk := (abRectCheck_eq_false_iff ⟨3, 20⟩ (w.heap layer1).posNext ⟨15, 149⟩).mpr hc
    unfold movePaddle
    simp only [if_pos e3, if_neg e0, hk, if_true]
    rw [changeState_zero, Function.update_same]
    exact ⟨rfl, rfl⟩
  · intro h0 h3 hc
    have e0 := (and_one_shiftLeft_eq_zero switches 0).mpr h0
    have e3 : ¬ (switches &&& (1 <<< 3) = 0) := fun e => by
      rw [(and_one_shiftLeft_eq_zero switches 3).mp e] at h3
      exact Bool.false_ne_true h3
    have hk := (abRectCheck_eq_false_iff ⟨3, 20⟩ (w.heap layer1).posNext ⟨15, 11⟩).mpr hc
    unfold movePaddle
    simp only [if_pos e0, if_neg e3, hk, if_true]
    rw [changeState_one, Function.update_same]
    exact ⟨rfl, rfl⟩
  · intro h3 h0
    have e0 : ¬ (switches &&& (1 <<< 0) = 0) := fun e => by
      rw [(and_one_shiftLeft_eq_zero switches 0).mp e] at h0
      exact Bool.false_ne_true h0
    have e3 : ¬ (switches &&& (1 <<< 3) = 0) := fun e => by
      rw [(and_one_shiftLeft_eq_zero switches 3).mp e] at h3
      exact Bool.false_ne_true h3
    unfold movePaddle
    simp only [if_neg e0, if_neg e3]

/-- Witness of C12: paddle at `posNext = (15,80)`, switches `1` (bit 3 clear, bit 0
set): the paddle goes to (15,85) and `posLast` takes (15,80). -/
theorem movePaddle_step_witness :
    ((movePaddle (gameWorld ⟨74, 85⟩ ⟨77, 88⟩ ⟨15, 80⟩) 1).heap layer1).posNext
        = { x := 15, y := 80 + 5 } ∧
    ((movePaddle (gameWorld ⟨74, 85⟩ ⟨77, 88⟩ ⟨15, 80⟩) 1).heap layer1).posLast
        = { x := 15, y := 80 } :=
  (movePaddle_step (gameWorld ⟨74, 85⟩ ⟨77, 88⟩ ⟨15, 80⟩) 1).1 (by decide) (by decide)
    (by decide)

/-- C13. Scenario C, containment taken as `|point - centre| ≤ (3,20)`.  When the paddle
rectangle at the paddle `posNext` contains the lower marker (15,149), a call of
`movePaddle` with bit 3 of the switches clear and bit 0 set changes nothing: `posNext`,
`posLast` and `pos` of the paddle, and the rest of the globals, are as before. -/
theorem movePaddle_lower_guard (w : World) (switches : Nat)
    (hin : |15 - (w.heap layer1).posNext.x| ≤ 3 ∧ |149 - (w.heap layer1).posNext.y| ≤ 20)
    (h3 : switches.testBit 3 = false) (h0 : switches.testBit 0 = true) :
    ((movePaddle w switches).heap layer1).posNext = (w.heap layer1).posNext ∧
    ((movePaddle w switches).heap layer1).posLast = (w.heap layer1).posLast ∧
    ((movePaddle w switches).heap layer1).pos = (w.heap layer1).pos ∧
    movePaddle w switches = w := by
  have e3 := (and_one_shiftLeft_eq_zero switches 3).mpr h3
  have e0 : ¬ (switches &&& (1 <<< 0) = 0) := fun e => by
    rw [(and_one_shiftLeft_eq_zero switches 0).mp e] at h0
    exact Bool.false_ne_true h0
  have hk := (abRectCheck_iff ⟨3, 20⟩ (w.heap layer1).posNext ⟨15, 149⟩).mpr hin
  have hw : movePaddle w switches = w := by
    unfold movePaddle
    simp only [if_pos e3, if_neg e0, hk, Bool.true_eq_false, if_false]
  rw [hw]
  exact ⟨rfl, rfl, rfl, rfl⟩

/-- Witness of C13: paddle at `posNext = (15,130)`, switches `1`. -/
theorem movePaddle_lower_guard_witness :
    ((movePaddle (gameWorld ⟨74, 85⟩ ⟨77, 88⟩ ⟨15, 130⟩) 1).heap layer1).posNext
      = { x := 15, y := 130 } :=
  (movePaddle_lower_guard (gameWorld ⟨74, 85⟩ ⟨77, 88⟩ ⟨15, 130⟩) 1 (by decide) (by decide)
    (by decide)).1

/-! ## movLayerDraw: the order of the writes -/

theorem flatMap_map_length {α β γ : Type} (f : α → β → γ) (cs : List β) (rs : List α) :
    (rs.flatMap fun a => cs.map (f a)).length = rs.length * cs.length := by
  induction rs with
  | nil => simp
  | cons a rest ih =>
    rw [List.flatMap_cons, List.length_append, ih, List.length_map, List.length_cons,
      Nat.succ_mul, Nat.add_comm]

theorem flatMap_map_map {α β γ δ : Type} (f : α → β → γ) (g : γ → δ) (cs : List β)
    (rs : List α) :
    (rs.flatMap fun a => cs.map fun b => g (f a b))
      = (rs.flatMap fun a => cs.map (f a)).map g := by
  induction rs with
  | nil => rfl
  | cons a rest ih =>
    rw [List.flatMap_cons, List.flatMap_cons, List.map_append, ih, List.map_map]
    rfl

/-- The colours that lines 91-105 resolve for the pixels of `bounds`, rows from top to
bottom and columns from left to right within each row. -/
theorem drawPixels_eq_map (w : World) (layers : List LayerId) (bounds : Region) :
    drawPixels w layers bounds
      = ((forLoop bounds.topLeft.y bounds.botRight.y).flatMap fun row =>
          (forLoop bounds.topLeft.x bounds.botRight.x).map fun col =>
            probeLayers w.heap w.bgColor { x := col, y := row } layers).map
          Ev.lcdWriteColor := by
  unfold drawPixels
  exact flatMap_map_map
    (fun (row col : Int) => probeLayers w.heap w.bgColor { x := col, y := row } layers)
    Ev.lcdWriteColor _ _

/-- C14. Pixel write discipline of `movLayerDraw`.  The trace is the two status register
calls followed by one block per moving layer, in order.  For a moving layer whose region
`R` has `topLeft ≤ botRight` on both axes, the block is the declaration of exactly the
rectangle `R` followed by colour writes only, `(botRight.x - topLeft.x + 1) *
(botRight.y - topLeft.y + 1)` of them, and write number `k` (from 0) carries the colour
resolved for the pixel number `k` in row-major order: row `topLeft.y + k / width`, column
`topLeft.x + k % width`. -/
theorem movLayerDraw_write_discipline (w : World) (movLayers : List MovLayer)
    (layers : List LayerId) :
    (movLayerDraw w movLayers layers).2
        = Ev.andSr (-9) :: Ev.orSr 8
            :: movLayers.flatMap (drawLayer (movLayerDraw w movLayers layers).1 layers) ∧
    ∀ m ∈ movLayers,
      let w1 := (movLayerDraw w movLayers layers).1
      let R := layerGetBounds (w1.heap m.layer)
      R.topLeft.x ≤ R.botRight.x → R.topLeft.y ≤ R.botRight.y →
      ∃ writes : List Color,
        drawLayer w1 layers m
          = Ev.lcdSetArea R.topLeft.x R.topLeft.y R.botRight.x R.botRight.y
              :: writes.map Ev.lcdWriteColor ∧
        (writes.length : Int)
          = (R.botRight.x - R.topLeft.x + 1) * (R.botRight.y - R.topLeft.y + 1) ∧
        ∀ k : Nat, k < writes.length →
          writes[k]? = some (probeLayers w1.heap w1.bgColor
            { x := R.topLeft.x + ((k % (R.botRight.x - R.topLeft.x + 1).toNat : Nat) : Int),
              y := R.topLeft.y + ((k / (R.botRight.x - R.topLeft.x + 1).toNat : Nat) : Int) }
            layers) := by
  refine ⟨by simp [movLayerDraw, drawLoop_eq_flatMap], ?_⟩
  intro m _ w1 R hx hy
  refine ⟨(forLoop R.topLeft.y R.botRight.y).flatMap fun row =>
      (forLoop R.topLeft.x R.botRight.x).map fun col =>
        probeLayers w1.heap w1.bgColor { x := col, y := row } layers, ?_, ?_, ?_⟩
  · unfold drawLayer
    simp only []
    rw [drawPixels_eq_map]
  · rw [flatMap_map_length, forLoop_length, forLoop_length]
    push_cast
    rw [Int.toNat_of_nonneg (by omega), Int.toNat_of_nonneg (by omega)]
    ring
  · intro k hk
    rw [flatMap_map_length, forLoop_length, forLoop_length] at hk
    have e : (R.botRight.x - R.topLeft.x + 1) = (R.botRight.x + 1 - R.topLeft.x) := by ring
    rw [e]
    have hW : 0 < (R.botRight.x + 1 - R.topLeft.x).toNat := by omega
    have hj : k % (R.botRight.x + 1 - R.topLeft.x).toNat
        < (R.botRight.x + 1 - R.topLeft.x).toNat := Nat.mod_lt _ hW
    have hi : k / (R.botRight.x + 1 - R.topLeft.x).toNat
        < (R.botRight.y + 1 - R.topLeft.y).toNat := by
      rw [Nat.div_lt_iff_lt_mul hW]
      exact hk
    have hc : (forLoop R.topLeft.x R.botRight.x)[k % (R.botRight.x + 1 - R.topLeft.x).toNat]?
        = some (R.topLeft.x + ((k % (R.botRight.x + 1 - R.topLeft.x).toNat : Nat) : Int)) :=
      countUp_getElem? _ _ _ hj
    have hr : (forLoop R.topLeft.y R.botRight.y)[k / (R.botRight.x + 1 - R.topLeft.x).toNat]?
        = some (R.topLeft.y + ((k / (R.botRight.x + 1 - R.topLeft.x).toNat : Nat) : Int)) :=
      countUp_getElem? _ _ _ hi
    have h := flatMap_map_getElem?
      (fun (row col : Int) => probeLayers w1.heap w1.bgColor { x := col, y := row } layers)
      _ _ _ hc _ _ _ hr
    rw [forLoop_length, Nat.div_add_mod'] at h
    exact h

/-- Witness of C14: the ball with `posLast = (12,77)` and `pos = (15,80)` after the commit
has the region 9..18 by 74..83; its block is the declaration followed by 100 writes. -/
theorem movLayerDraw_write_discipline_witness :
    ((drawLayer (movLayerDraw (gameWorld ⟨12, 77⟩ ⟨15, 80⟩ ⟨15, 80⟩) [ballNode ⟨3, 3⟩]
        [layer0, layer1]).1 [layer0, layer1] (ballNode ⟨3, 3⟩)).length : Int)
      = (18 - 9 + 1) * (83 - 74 + 1) + 1 := by
  obtain ⟨writes, h1, h2, _⟩ := (movLayerDraw_write_discipline
    (gameWorld ⟨12, 77⟩ ⟨15, 80⟩ ⟨15, 80⟩) [ballNode ⟨3, 3⟩] [layer0, layer1]).2
    (ballNode ⟨3, 3⟩) (by decide) (by decide) (by decide)
  rw [h1, List.length_cons, List.length_map]
  push_cast
  rw [h2]
  decide

/-! ## Writers of posNext -/

theorem commitLoop_frame (heap : LayerId → Layer) (l : List MovLayer) (id : LayerId) :
    (commitLoop heap l id).posNext = (heap id).posNext ∧
    (commitLoop heap l id).abShape = (heap id).abShape ∧
    (commitLoop heap l id).color = (heap id).color ∧
    (commitLoop heap l id).next = (heap id).next := by
  induction l generalizing heap with
  | nil => exact ⟨rfl, rfl, rfl, rfl⟩
  | cons m rest ih =>
    simp only [commitLoop]
    obtain ⟨h1, h2, h3, h4⟩ := ih (Function.update
        (Function.update heap m.layer { heap m.layer with posLast := (heap m.layer).pos })
        m.layer
        { Function.update heap m.layer { heap m.layer with posLast := (heap m.layer).pos }
            m.layer with
          pos := (Function.update heap m.layer
            { heap m.layer with posLast := (heap m.layer).pos } m.layer).posNext })
    rw [h1, h2, h3, h4]
    by_cases e : id = m.layer
    · subst e
      simp [Function.update_same]
    · simp [Function.update_noteq e]

theorem movePaddle_heap (w : World) (switches : Nat) :
    (movePaddle w switches).heap
      = Function.update w.heap layer1
          { w.heap layer1 with
            posNext :=
              { x := (w.heap layer1).posNext.x,
                y := (w.heap layer1).posNext.y
                  + (if switches.testBit 3 = false ∧
                        ¬ (|15 - (w.heap layer1).posNext.x| ≤ 3 ∧
                            |149 - (w.heap layer1).posNext.y| ≤ 20) then 5 else 0)
                  - (if switches.testBit 0 = false ∧
                        ¬ (|15 - (w.heap layer1).posNext.x| ≤ 3 ∧
                            |11 - (w.heap layer1).posNext.y| ≤ 20) then 5 else 0) },
            posLast :=
              if (switches.testBit 3 = false ∧
                    ¬ (|15 - (w.heap layer1).posNext.x| ≤ 3 ∧
                        |149 - (w.heap layer1).posNext.y| ≤ 20)) ∨
                  (switches.testBit 0 = false ∧
                    ¬ (|15 - (w.heap layer1).posNext.x| ≤ 3 ∧
                        |11 - (w.heap layer1).posNext.y| ≤ 20))
              then (w.heap layer1).posNext else (w.heap layer1).posLast } := by
  have k3 := and_one_shiftLeft_eq_zero switches 3
  have k0 := and_one_shiftLeft_eq_zero switches 0
  have c2 := abRectCheck_eq_false_iff ⟨3, 20⟩ (w.heap layer1).posNext ⟨15, 149⟩
  have c1 := abRectCheck_eq_false_iff ⟨3, 20⟩ (w.heap layer1).posNext ⟨15, 11⟩
  dsimp only at c2 c1
  unfold movePaddle
  simp only [k3, k0, ← c2, ← c1]
  by_cases h3 : switches.testBit 3 = false <;>
  by_cases h0 : switches.testBit 0 = false <;>
  by_cases d2 : abRectCheck ⟨3, 20⟩ (w.heap layer1).posNext ⟨15, 149⟩ = false <;>
  by_cases d1 : abRectCheck ⟨3, 20⟩ (w.heap layer1).posNext ⟨15, 11⟩ = false <;>
  simp only [h3, h0, d2, d1, if_true, if_false, and_self, and_true, and_false, or_self,
    or_true, or_false, true_and, false_and, true_or, false_or, not_true_eq_false,
    not_false_eq_true, changeState_zero, changeState_one, Function.update_same,
    Function.update_idem, add_zero, sub_zero, Function.update_eq_self] <;>
  first
    | rfl
    | exact changeState_zero w _
    | exact changeState_one w _
    | simp [changeState, Vec2.setAxis, Vec2.axes]

theorem movePaddle_globals (w : World) (switches : Nat) :
    movePaddle w switches = { w with heap := (movePaddle w switches).heap } := by
  unfold movePaddle changeState
  simp only []
  split_ifs <;> rfl

/-- C15, the claim fails: with the paddle at `posNext = (15,80)` and switches `1` (bit 3
clear), `movePaddle`, called from the main loop, moves the `posNext` of the paddle layer
to (15,85). -/
theorem single_writer_counterexample :
    ((movePaddle (gameWorld ⟨74, 85⟩ ⟨77, 88⟩ ⟨15, 80⟩) 1).heap layer1).posNext
      ≠ ((gameWorld ⟨74, 85⟩ ⟨77, 88⟩ ⟨15, 80⟩).heap layer1).posNext := by
  decide

/-- C15 as amended.  `movLayerDraw` leaves the `posNext` of every layer unchanged.
`movePaddle`, through `changeState`, leaves every layer other than the paddle layer
unchanged and writes the `posNext` of the paddle layer: axis 0 keeps its value and axis 1
keeps its value or moves by 5 up or down.  So `posNext` has two writers, `mlAdvance` in
the interrupt context and `changeState` in the main loop. -/
theorem posNext_writers (w : World) (movLayers : List MovLayer) (layers : List LayerId)
    (switches : Nat) :
    (∀ id, ((movLayerDraw w movLayers layers).1.heap id).posNext = (w.heap id).posNext) ∧
    (∀ id, id ≠ layer1 → (movePaddle w switches).heap id = w.heap id) ∧
    ((movePaddle w switches).heap layer1).posNext.x = (w.heap layer1).posNext.x ∧
    (((movePaddle w switches).heap layer1).posNext.y = (w.heap layer1).posNext.y ∨
      ((movePaddle w switches).heap layer1).posNext.y = (w.heap layer1).posNext.y + 5 ∨
      ((movePaddle w switches).heap layer1).posNext.y = (w.heap layer1).posNext.y - 5) := by
  refine ⟨fun id => (commitLoop_frame w.heap movLayers id).1, ?_, ?_, ?_⟩
  · intro id hid
    rw [movePaddle_heap, Function.update_noteq hid]
  · rw [movePaddle_heap, Function.update_same]
  · rw [movePaddle_heap, Function.update_same]
    simp only []
    split_ifs <;> omega

/-- Witness of C15 as amended: the main-loop call that moves the paddle leaves the ball
layer as it was. -/
theorem posNext_writers_witness :
    (movePaddle (gameWorld ⟨74, 85⟩ ⟨77, 88⟩ ⟨15, 80⟩) 1).heap layer0
      = (gameWorld ⟨74, 85⟩ ⟨77, 88⟩ ⟨15, 80⟩).heap layer0 :=
  (posNext_writers (gameWorld ⟨74, 85⟩ ⟨77, 88⟩ ⟨15, 80⟩) [] [] 1).2.1 layer0 (by decide)

/-! ## wdt_c_handler -/

theorem advanceLayer_redraw_bg (w : World) (fence : Region) (m : MovLayer) :
    (advanceLayer w fence m).1.redrawScreen = w.redrawScreen ∧
    (advanceLayer w fence m).1.bgColor = w.bgColor :=
  ⟨advanceLayer_redrawScreen w fence m, advanceLayer_bgColor w fence m⟩

theorem mlAdvance_redraw_bg (w : World) (fence : Region) (l : List MovLayer) :
    (mlAdvance w l fence).1.redrawScreen = w.redrawScreen ∧
    (mlAdvance w l fence).1.bgColor = w.bgColor := by
  induction l generalizing w with
  | nil => exact ⟨rfl, rfl⟩
  | cons m rest ih =>
    simp only [mlAdvance]
    obtain ⟨h1, h2⟩ := ih (advanceLayer w fence m).1
    obtain ⟨g1, g2⟩ := advanceLayer_redraw_bg w fence m
    exact ⟨h1.trans g1, h2.trans g2⟩

theorem wdt_c_handler_tick (g : Game) (p2sw : Nat) (h : g.count + 1 = 15) :
    wdt_c_handler g p2sw
      = { w := { (mlAdvance g.w g.movLayers g.fieldFence).1 with
                  redrawScreen := if p2sw ≠ 0 then 1 else g.w.redrawScreen },
          movLayers := (mlAdvance g.w g.movLayers g.fieldFence).2,
          fieldFence := g.fieldFence,
          count := 0 } := by
  unfold wdt_c_handler
  simp only [h, if_true]
  by_cases hp : p2sw ≠ 0
  · simp only [if_pos hp]
  · simp only [if_neg hp]
    rw [← (mlAdvance_redraw_bg g.w g.fieldFence g.movLayers).1]

theorem wdt_c_handler_idle (g : Game) (p2sw : Nat) (h : g.count + 1 ≠ 15) :
    wdt_c_handler g p2sw = { g with count := g.count + 1 } := by
  unfold wdt_c_handler
  simp only [h, if_false]

theorem wdt_c_handler_count (g : Game) (p2sw : Nat) :
    (wdt_c_handler g p2sw).count = if g.count + 1 = 15 then 0 else g.count + 1 := by
  by_cases h : g.count + 1 = 15
  · rw [wdt_c_handler_tick g p2sw h, if_pos h]
  · rw [wdt_c_handler_idle g p2sw h, if_neg h]

theorem wdtRun_append (g : Game) (l1 l2 : List Nat) :
    wdtRun g (l1 ++ l2) = wdtRun (wdtRun g l1) l2 := by
  induction l1 generalizing g with
  | nil => rfl
  | cons r rest ih => simp [wdtRun, ih]

theorem wdtRun_count (g : Game) (c : Nat) (hc : g.count = (c : Int)) (hlt : c < 15)
    (readings : List Nat) :
    (wdtRun g readings).count = (((c + readings.length) % 15 : Nat) : Int) := by
  induction readings generalizing g c with
  | nil =>
    simp only [wdtRun, List.length_nil, Nat.add_zero, Nat.mod_eq_of_lt hlt]
    exact hc
  | cons r rest ih =>
    simp only [wdtRun, List.length_cons]
    by_cases h : c + 1 = 15
    · have hcount : (wdt_c_handler g r).count = ((0 : Nat) : Int) := by
        rw [wdt_c_handler_count, hc, if_pos (by omega)]
        rfl
      rw [ih (wdt_c_handler g r) 0 hcount (by omega)]
      congr 1
      omega
    · have hcount : (wdt_c_handler g r).count = ((c + 1 : Nat) : Int) := by
        rw [wdt_c_handler_count, hc, if_neg (by omega)]
        push_cast
        rfl
      rw [ih (wdt_c_handler g r) (c + 1) hcount (by omega)]
      congr 1
      omega

theorem count_multiples (n : Nat) :
    ((List.range n).filter fun k => decide ((k + 1) % 15 = 0)).length = n / 15 := by
  induction n with
  | zero => rfl
  | succ n ih =>
    rw [List.range_succ, List.filter_append, List.length_append, ih]
    by_cases h : (n + 1) % 15 = 0
    · simp only [List.filter_cons, h, decide_True, if_true, List.filter_nil,
        List.length_singleton]
      omega
    · simp only [List.filter_cons, h, decide_False, List.filter_nil, List.length_nil]
      simp
      omega

theorem wdtRun_take_count (g : Game) (readings : List Nat) (h0 : g.count = 0) (k : Nat)
    (hk : k ≤ readings.length) :
    (wdtRun g (readings.take k)).count = ((k % 15 : Nat) : Int) := by
  have h := wdtRun_count g 0 (by rw [h0]; rfl) (by omega) (readings.take k)
  rw [List.length_take, Nat.min_eq_left hk, Nat.zero_add] at h
  exact h

theorem wdtRun_take_succ (g : Game) (readings : List Nat) (k p2sw : Nat)
    (hk : readings[k]? = some p2sw) :
    wdtRun g (readings.take (k + 1)) = wdt_c_handler (wdtRun g (readings.take k)) p2sw := by
  rw [List.take_succ, hk, wdtRun_append]
  rfl

/-- C16. Tick rate divider of `wdt_c_handler`.  Start from `count = 0` and fire the handler
once per switch reading of any list.  After `k` firings `count = k mod 15`, so it stays
within 0..14.  Firing number `k + 1` calls `mlAdvance` exactly when `k + 1` is a multiple
of 15: it then stores the result of `mlAdvance(&ml0, &fieldFence)`, resets `count`, and
sets the redraw flag to 1 when its switch reading is non-zero and leaves the flag as it
was when the reading is zero; every other firing changes the counter only.  Among `n`
firings, `n / 15` take the branch that calls `mlAdvance`. -/
theorem wdt_rate_divider (g : Game) (readings : List Nat) (h0 : g.count = 0) :
    (∀ k, k ≤ readings.length →
      (wdtRun g (readings.take k)).count = ((k % 15 : Nat) : Int) ∧
      0 ≤ (wdtRun g (readings.take k)).count ∧ (wdtRun g (readings.take k)).count ≤ 14) ∧
    (∀ k p2sw, readings[k]? = some p2sw →
      wdtRun g (readings.take (k + 1))
          = wdt_c_handler (wdtRun g (readings.take k)) p2sw ∧
      ((k + 1) % 15 = 0 →
        wdt_c_handler (wdtRun g (readings.take k)) p2sw
          = { w := { (mlAdvance (wdtRun g (readings.take k)).w
                        (wdtRun g (readings.take k)).movLayers
                        (wdtRun g (readings.take k)).fieldFence).1 with
                      redrawScreen :=
                        if p2sw ≠ 0 then 1 else (wdtRun g (readings.take k)).w.redrawScreen },
              movLayers := (mlAdvance (wdtRun g (readings.take k)).w
                        (wdtRun g (readings.take k)).movLayers
                        (wdtRun g (readings.take k)).fieldFence).2,
              fieldFence := (wdtRun g (readings.take k)).fieldFence,
              count := 0 }) ∧
      ((k + 1) % 15 ≠ 0 →
        wdt_c_handler (wdtRun g (readings.take k)) p2sw
          = { wdtRun g (readings.take k) with
              count := (wdtRun g (readings.take k)).count + 1 })) ∧
    ((List.range readings.length).filter fun k =>
        decide ((wdtRun g (readings.take k)).count + 1 = 15)).length
      = readings.length / 15 := by
  refine ⟨?_, ?_, ?_⟩
  · intro k hk
    have h := wdtRun_take_count g readings h0 k hk
    refine ⟨h, ?_, ?_⟩ <;> rw [h] <;> omega
  · intro k p2sw hk
    have hlt : k < readings.length := (List.getElem?_eq_some.mp hk).1
    have h := wdtRun_take_count g readings h0 k (Nat.le_of_lt hlt)
    refine ⟨wdtRun_take_succ g readings k p2sw hk, ?_, ?_⟩
    · intro hm
      exact wdt_c_handler_tick _ p2sw (by rw [h]; omega)
    · intro hm
      exact wdt_c_handler_idle _ p2sw (by rw [h]; omega)
  · rw [← count_multiples readings.length]
    congr 1
    apply List.filter_congr
    intro k hk
    have hlt : k < readings.length := List.mem_range.mp hk
    have h := wdtRun_take_count g readings h0 k (Nat.le_of_lt hlt)
    rw [h]
    congr 1
    apply propext
    constructor <;> intro hh <;> omega

/-- Witness of C16: 30 firings of the program game with all switch readings 1; after 29
firings the counter is 14, and firing number 30 resets it. -/
theorem wdt_rate_divider_witness :
    (wdtRun programGame ((List.replicate 30 1).take 29)).count = ((29 % 15 : Nat) : Int) ∧
    (wdtRun programGame ((List.replicate 30 1).take 30)).count = ((30 % 15 : Nat) : Int) :=
  ⟨((wdt_rate_divider programGame (List.replicate 30 1) rfl).1 29 (by decide)).1,
   ((wdt_rate_divider programGame (List.replicate 30 1) rfl).1 30 (by decide)).1⟩

/-! ## The paddle under movePaddle and mlAdvance -/

theorem advanceLayer_at_rest (w : World) (fence : Region) (m : MovLayer)
    (hv : m.velocity = ⟨0, 0⟩) :
    (advanceLayer w fence m).2 = m ∧
    ((advanceLayer w fence m).1.heap m.layer).posNext = (w.heap m.layer).posNext := by
  constructor
  · have e0 := advanceLayer_velocity w fence m 0
    have e1 := advanceLayer_velocity w fence m 1
    have hl := advanceLayer_layer w fence m
    have hvel : (advanceLayer w fence m).2.velocity = m.velocity := by
      apply Vec2.eq_of_axes
      · rw [e0, hv]
        simp [Vec2.axes]
      · rw [e1, hv]
        simp [Vec2.axes]
    cases hr : (advanceLayer w fence m).2 with
    | mk l v =>
      rw [hr] at hvel hl
      simp only at hvel hl
      cases m with
      | mk l2 v2 =>
        simp only at hvel hl
        rw [hvel, hl]
  · rw [advanceLayer_heap_same]
    simp only [storedPos, hv, sub_zero, add_zero, ite_self]

theorem mlAdvance_at_rest (w : World) (fence : Region) (l : List MovLayer) (L : LayerId)
    (h : ∀ n ∈ l, n.layer = L → n.velocity = ⟨0, 0⟩) :
    ((mlAdvance w l fence).1.heap L).posNext = (w.heap L).posNext ∧
    ∀ n ∈ (mlAdvance w l fence).2, n.layer = L → n.velocity = ⟨0, 0⟩ := by
  induction l generalizing w with
  | nil =>
    refine ⟨rfl, ?_⟩
    intro n hn
    simp [mlAdvance] at hn
  | cons m rest ih =>
    obtain ⟨h1, h2⟩ := ih (advanceLayer w fence m).1
      (fun n hn => h n (List.mem_cons_of_mem m hn))
    simp only [mlAdvance]
    by_cases hm : m.layer = L
    · have hv := h m (List.mem_cons_self m rest) hm
      obtain ⟨a1, a2⟩ := advanceLayer_at_rest w fence m hv
      refine ⟨?_, ?_⟩
      · rw [h1, ← hm, a2]
      · intro n hn
        rcases List.mem_cons.mp hn with e | hin
        · rw [e, a1]
          exact fun _ => hv
        · exact h2 n hin
    · refine ⟨?_, ?_⟩
      · rw [h1, advanceLayer_heap_other w fence m L (fun e => hm e.symm)]
      · intro n hn
        rcases List.mem_cons.mp hn with e | hin
        · intro hl
          rw [e, advanceLayer_layer] at hl
          exact absurd hl hm
        · exact h2 n hin

/-- The invariant of the paddle: `posNext` at x = 15 with y a multiple of 5 within
30..130, and every node that points to the paddle layer at velocity (0,0). -/
theorem paddle_invariant_step (g : Game) (c : Call)
    (hx : (g.w.heap layer1).posNext.x = 15)
    (hdiv : 5 ∣ (g.w.heap layer1).posNext.y)
    (hlo : 30 ≤ (g.w.heap layer1).posNext.y) (hhi : (g.w.heap layer1).posNext.y ≤ 130)
    (hv : ∀ n ∈ g.movLayers, n.layer = layer1 → n.velocity = ⟨0, 0⟩) :
    ((doCall g c).w.heap layer1).posNext.x = 15 ∧
    5 ∣ ((doCall g c).w.heap layer1).posNext.y ∧
    30 ≤ ((doCall g c).w.heap layer1).posNext.y ∧
    ((doCall g c).w.heap layer1).posNext.y ≤ 130 ∧
    ∀ n ∈ (doCall g c).movLayers, n.layer = layer1 → n.velocity = ⟨0, 0⟩ := by
  cases c with
  | movePaddle switches =>
    simp only [doCall]
    rw [movePaddle_heap, Function.update_same]
    simp only [hx, abs_le]
    refine ⟨trivial, ?_, ?_, ?_, hv⟩ <;> split_ifs <;> omega
  | mlAdvance =>
    simp only [doCall]
    obtain ⟨h1, h2⟩ := mlAdvance_at_rest g.w g.fieldFence g.movLayers layer1 hv
    rw [h1]
    exact ⟨hx, hdiv, hlo, hhi, h2⟩

theorem paddle_invariant_calls (g : Game) (calls : List Call)
    (hx : (g.w.heap layer1).posNext.x = 15)
    (hdiv : 5 ∣ (g.w.heap layer1).posNext.y)
    (hlo : 30 ≤ (g.w.heap layer1).posNext.y) (hhi : (g.w.heap layer1).posNext.y ≤ 130)
    (hv : ∀ n ∈ g.movLayers, n.layer = layer1 → n.velocity = ⟨0, 0⟩) :
    ((doCalls g calls).w.heap layer1).posNext.x = 15 ∧
    5 ∣ ((doCalls g calls).w.heap layer1).posNext.y ∧
    30 ≤ ((doCalls g calls).w.heap layer1).posNext.y ∧
    ((doCalls g calls).w.heap layer1).posNext.y ≤ 130 ∧
    ∀ n ∈ (doCalls g calls).movLayers, n.layer = layer1 → n.velocity = ⟨0, 0⟩ := by
  induction calls generalizing g with
  | nil => exact ⟨hx, hdiv, hlo, hhi, hv⟩
  | cons c rest ih =>
    obtain ⟨a1, a2, a3, a4, a5⟩ := paddle_invariant_step g c hx hdiv hlo hhi hv
    exact ih (doCall g c) a1 a2 a3 a4 a5

/-- C17. Paddle stays inside the fence, containment taken as `|point - centre| ≤ (3,20)`.
Start with the paddle `posNext` at (15,80) and velocity (0,0) in every node that points
to the paddle layer.  After any finite sequence of `movePaddle` calls, with any switch
values, and `mlAdvance` calls, whatever the ball, the fence and the contact, the paddle
`posNext` has x = 15, y a multiple of 5 with 30 ≤ y ≤ 130, its bounding region
`y - 20 .. y + 20` lies within 10..150, and the velocity of the paddle is still (0,0). -/
theorem paddle_stays_inside (g : Game) (calls : List Call)
    (hp : (g.w.heap layer1).posNext = ⟨15, 80⟩)
    (hv : ∀ n ∈ g.movLayers, n.layer = layer1 → n.velocity = ⟨0, 0⟩) :
    ((doCalls g calls).w.heap layer1).posNext.x = 15 ∧
    5 ∣ ((doCalls g calls).w.heap layer1).posNext.y ∧
    30 ≤ ((doCalls g calls).w.heap layer1).posNext.y ∧
    ((doCalls g calls).w.heap layer1).posNext.y ≤ 130 ∧
    (abRectGetBounds ⟨3, 20⟩ ((doCalls g calls).w.heap layer1).posNext).topLeft.y
      = ((doCalls g calls).w.heap layer1).posNext.y - 20 ∧
    (abRectGetBounds ⟨3, 20⟩ ((doCalls g calls).w.heap layer1).posNext).botRight.y
      = ((doCalls g calls).w.heap layer1).posNext.y + 20 ∧
    10 ≤ (abRectGetBounds ⟨3, 20⟩ ((doCalls g calls).w.heap layer1).posNext).topLeft.y ∧
    (abRectGetBounds ⟨3, 20⟩ ((doCalls g calls).w.heap layer1).posNext).botRight.y ≤ 150 ∧
    ∀ n ∈ (doCalls g calls).movLayers, n.layer = layer1 → n.velocity = ⟨0, 0⟩ := by
  obtain ⟨a1, a2, a3, a4, a5⟩ := paddle_invariant_calls g calls
    (by rw [hp]) (by rw [hp]; decide) (by rw [hp]; decide) (by rw [hp]; decide) hv
  refine ⟨a1, a2, a3, a4, rfl, rfl, ?_, ?_, a5⟩
  · show 10 ≤ ((doCalls g calls).w.heap layer1).posNext.y - 20
    omega
  · show ((doCalls g calls).w.heap layer1).posNext.y + 20 ≤ 150
    omega

/-- Witness of C17: from the program start, a tick, eleven steps down (the last one is
refused by the guard at the lower marker) and a tick leave the paddle at most at 130. -/
theorem paddle_stays_inside_witness :
    ((doCalls programGame
        ([Call.mlAdvance] ++ List.replicate 11 (Call.movePaddle 1) ++ [Call.mlAdvance])).w.heap
          layer1).posNext.y ≤ 130 :=
  (paddle_stays_inside programGame
    ([Call.mlAdvance] ++ List.replicate 11 (Call.movePaddle 1) ++ [Call.mlAdvance])
    rfl (by decide)).2.2.2.1

/-! ## Frame of the two engines -/

theorem IsLayerList_congr (h1 h2 : LayerId → Layer) (hn : ∀ id, (h1 id).next = (h2 id).next)
    (head : Option LayerId) (ls : List LayerId) :
    IsLayerList h1 head ls → IsLayerList h2 head ls := by
  induction ls generalizing head with
  | nil =>
    cases head with
    | none => exact fun _ => trivial
    | some p => exact fun h => h
  | cons q rest ih =>
    cases head with
    | none => exact fun h => h
    | some p =>
      intro h
      simp only [IsLayerList] at h
      simp only [IsLayerList]
      exact ⟨h.1, ih _ (hn p ▸ h.2)⟩

theorem advanceLayer_next (w : World) (fence : Region) (m : MovLayer) (id : LayerId) :
    ((advanceLayer w fence m).1.heap id).next = (w.heap id).next := by
  by_cases h : id = m.layer
  · subst h
    rw [advanceLayer_heap_same]
  · rw [advanceLayer_heap_other w fence m id h]

theorem mlAdvance_next (w : World) (fence : Region) (l : List MovLayer) (id : LayerId) :
    ((mlAdvance w l fence).1.heap id).next = (w.heap id).next := by
  induction l generalizing w with
  | nil => rfl
  | cons m rest ih =>
    simp only [mlAdvance]
    rw [ih, advanceLayer_next]

theorem mlAdvance_layers (w : World) (fence : Region) (l : List MovLayer) :
    (mlAdvance w l fence).2.map MovLayer.layer = l.map MovLayer.layer := by
  induction l generalizing w with
  | nil => rfl
  | cons m rest ih =>
    simp only [mlAdvance, List.map_cons, ih, advanceLayer_layer]

theorem ledPulse_off (p : Nat) (h8 : p < 256) (hoff : p &&& GREEN_LED = 0) :
    ledPulse p = p := by
  have hit : ∀ n : Nat, Nat.iterate (fun q => q ||| GREEN_LED) (n + 1) p = p ||| GREEN_LED := by
    intro n
    induction n with
    | zero => rfl
    | succ n ih =>
      rw [Function.iterate_succ_apply', ih, Nat.or_assoc, Nat.or_self]
  unfold ledPulse
  rw [hit 248]
  apply Nat.eq_of_testBit_eq
  intro i
  have hb : (p &&& GREEN_LED).testBit i = false := by rw [hoff]; simp
  rw [Nat.testBit_and] at hb
  rw [Nat.testBit_and, Nat.testBit_or]
  by_cases h6 : i = 6
  · subst h6
    have e : GREEN_LED.testBit 6 = true := by decide
    rw [e, Bool.and_true] at hb
    rw [hb]
    decide
  · by_cases hi : i < 8
    · have e1 : GREEN_LED.testBit i = false := by
        have : i = 0 ∨ i = 1 ∨ i = 2 ∨ i = 3 ∨ i = 4 ∨ i = 5 ∨ i = 7 := by omega
        rcases this with h | h | h | h | h | h | h <;> subst h <;> decide
      have e2 : (255 - GREEN_LED).testBit i = true := by
        have : i = 0 ∨ i = 1 ∨ i = 2 ∨ i = 3 ∨ i = 4 ∨ i = 5 ∨ i = 7 := by omega
        rcases this with h | h | h | h | h | h | h <;> subst h <;> decide
      rw [e1, e2, Bool.or_false, Bool.and_true]
    · have e3 : p.testBit i = false :=
        Nat.testBit_lt_two_pow (Nat.lt_of_lt_of_le h8
          (by
            have : 2 ^ 8 ≤ 2 ^ i := Nat.pow_le_pow_right (by decide) (by omega)
            simpa using this))
      have e4 : (255 - GREEN_LED).testBit i = false :=
        Nat.testBit_lt_two_pow (Nat.lt_of_lt_of_le (by decide : 255 - GREEN_LED < 256)
          (by
            have : 2 ^ 8 ≤ 2 ^ i := Nat.pow_le_pow_right (by decide) (by omega)
            simpa using this))
      rw [e3, e4, Bool.and_false]

theorem advanceLayer_p1out (w : World) (fence : Region) (m : MovLayer)
    (h8 : w.p1out < 256) (hoff : w.p1out &&& GREEN_LED = 0) :
    (advanceLayer w fence m).1.p1out = w.p1out := by
  have hp := ledPulse_off w.p1out h8 hoff
  unfold advanceLayer
  simp only []
  rw [axisBody_eq fence _ 1, axisBody_eq fence _ 0]
  simp only [hp, ite_self]

theorem mlAdvance_p1out (w : World) (fence : Region) (l : List MovLayer)
    (h8 : w.p1out < 256) (hoff : w.p1out &&& GREEN_LED = 0) :
    (mlAdvance w l fence).1.p1out = w.p1out := by
  induction l generalizing w with
  | nil => rfl
  | cons m rest ih =>
    have h := advanceLayer_p1out w fence m h8 hoff
    simp only [mlAdvance]
    rw [ih (advanceLayer w fence m).1 (by rw [h]; exact h8) (by rw [h]; exact hoff), h]

/-- C18. Frame of the two engines, for every state of the game.  `mlAdvance` leaves the
`pos`, `posLast`, colour, shape and `next` pointer of every layer unchanged, hence every
layer list as it was; it returns the nodes of the moving-layer list in the same order,
pointing to the same layers; it leaves the redraw flag and the background colour
unchanged, and the LED port too when the LED was off.  `movLayerDraw` leaves the nodes of
the moving-layer list (so every velocity), `s`, `gameOver` and every layer that no node
of the moving-layer list points to (so its `pos` and `posLast`) unchanged. -/
theorem engines_frame (g : Game) (layers : List LayerId) :
    (∀ id,
      ((mlAdvance g.w g.movLayers g.fieldFence).1.heap id).pos = (g.w.heap id).pos ∧
      ((mlAdvance g.w g.movLayers g.fieldFence).1.heap id).posLast = (g.w.heap id).posLast ∧
      ((mlAdvance g.w g.movLayers g.fieldFence).1.heap id).color = (g.w.heap id).color ∧
      ((mlAdvance g.w g.movLayers g.fieldFence).1.heap id).abShape = (g.w.heap id).abShape ∧
      ((mlAdvance g.w g.movLayers g.fieldFence).1.heap id).next = (g.w.heap id).next) ∧
    (∀ head ls, IsLayerList g.w.heap head ls →
      IsLayerList (mlAdvance g.w g.movLayers g.fieldFence).1.heap head ls) ∧
    (mlAdvance g.w g.movLayers g.fieldFence).2.map MovLayer.layer
      = g.movLayers.map MovLayer.layer ∧
    (mlAdvance g.w g.movLayers g.fieldFence).1.redrawScreen = g.w.redrawScreen ∧
    (mlAdvance g.w g.movLayers g.fieldFence).1.bgColor = g.w.bgColor ∧
    (g.w.p1out < 256 → g.w.p1out &&& GREEN_LED = 0 →
      (mlAdvance g.w g.movLayers g.fieldFence).1.p1out = g.w.p1out) ∧
    (drawCall g layers).1.movLayers = g.movLayers ∧
    (movLayerDraw g.w g.movLayers layers).1.s = g.w.s ∧
    (movLayerDraw g.w g.movLayers layers).1.gameOver = g.w.gameOver ∧
    (∀ id, (∀ m ∈ g.movLayers, m.layer ≠ id) →
      (movLayerDraw g.w g.movLayers layers).1.heap id = g.w.heap id ∧
      ((movLayerDraw g.w g.movLayers layers).1.heap id).pos = (g.w.heap id).pos ∧
      ((movLayerDraw g.w g.movLayers layers).1.heap id).posLast = (g.w.heap id).posLast) := by
  refine ⟨?_, ?_, mlAdvance_layers _ _ _, (mlAdvance_redraw_bg _ _ _).1,
    (mlAdvance_redraw_bg _ _ _).2, mlAdvance_p1out _ _ _, rfl, rfl, rfl, ?_⟩
  · intro id
    obtain ⟨h1, h2, h3, h4⟩ := mlAdvance_frame g.w g.fieldFence g.movLayers id
    exact ⟨h1, h2, h4, h3, mlAdvance_next _ _ _ id⟩
  · intro head ls h
    exact IsLayerList_congr _ _ (fun id => (mlAdvance_next _ _ _ id).symm) head ls h
  · intro id hid
    have h : (movLayerDraw g.w g.movLayers layers).1.heap id = g.w.heap id :=
      commitLoop_other g.w.heap g.movLayers id hid
    exact ⟨h, by rw [h], by rw [h]⟩

/-- Witness of C18: in the program game the moving layers point to `layer0` and `layer1`;
the redraw leaves the position of `fieldLayer` as it was. -/
theorem engines_frame_witness :
    ((movLayerDraw programGame.w programGame.movLayers [layer0, layer1]).1.heap fieldLayer).pos
      = (programGame.w.heap fieldLayer).pos :=
  ((engines_frame programGame [layer0, layer1]).2.2.2.2.2.2.2.2.2 fieldLayer
    (by decide)).2.1

/-! ## Two successive ticks -/

theorem movLayer_eq_of_axes (a b : MovLayer) (hl : a.layer = b.layer)
    (h0 : a.velocity.axes 0 = b.velocity.axes 0) (h1 : a.velocity.axes 1 = b.velocity.axes 1) :
    a = b := by
  have hv := Vec2.eq_of_axes _ _ h0 h1
  cases a
  cases b
  simp only at hl hv
  rw [hl, hv]

theorem advanceLayer_contact (w : World) (fence : Region) (m : MovLayer)
    (hc : paddleContact w) :
    (advanceLayer w fence m).1.heap = mirrorStep w.heap m ∧
    (advanceLayer w fence m).2 = negNode m := by
  have hf : ∀ a, fires fence (candidateBounds w m) w a := fun a => Or.inr (Or.inr hc)
  constructor
  · rw [advanceLayer_heap]
    unfold mirrorStep storedPos vec2Sub
    simp only [if_pos (hf 0), if_pos (hf 1)]
  · apply movLayer_eq_of_axes
    · rfl
    · rw [advanceLayer_velocity, if_pos (hf 0)]
      simp [negNode, Vec2.axes]
    · rw [advanceLayer_velocity, if_pos (hf 1)]
      simp [negNode, Vec2.axes]

theorem advanceLayer_paddleContact (w : World) (fence : Region) (m : MovLayer) :
    paddleContact (advanceLayer w fence m).1 ↔ paddleContact w :=
  paddleContact_congr _ _ (fun id => (advanceLayer_frame w fence m id).1)

theorem mlAdvance_paddleContact (w : World) (fence : Region) (l : List MovLayer) :
    paddleContact (mlAdvance w l fence).1 ↔ paddleContact w :=
  paddleContact_congr _ _ (fun id => (mlAdvance_frame w fence l id).1)

theorem mlAdvance_contact (w : World) (fence : Region) (l : List MovLayer)
    (hc : paddleContact w) :
    (mlAdvance w l fence).1.heap = mirrorAll w.heap l ∧
    (mlAdvance w l fence).2 = l.map negNode := by
  induction l generalizing w with
  | nil => exact ⟨rfl, rfl⟩
  | cons m rest ih =>
    obtain ⟨a1, a2⟩ := advanceLayer_contact w fence m hc
    obtain ⟨h1, h2⟩ := ih (advanceLayer w fence m).1
      ((advanceLayer_paddleContact w fence m).mpr hc)
    simp only [mlAdvance, mirrorAll, List.map_cons]
    rw [h1, h2, a1, a2]
    exact ⟨rfl, rfl⟩

theorem mirrorStep_comm (heap : LayerId → Layer) (a b : MovLayer) :
    mirrorStep (mirrorStep heap a) b = mirrorStep (mirrorStep heap b) a := by
  funext id
  unfold mirrorStep
  by_cases hab : a.layer = b.layer
  · rw [hab]
    by_cases hid : id = b.layer
    · subst hid
      simp only [Function.update_same, vec2Sub]
      congr 2 <;> ring
    · simp only [Function.update_noteq hid]
  · have hba : b.layer ≠ a.layer := fun e => hab e.symm
    by_cases hia : id = a.layer
    · subst hia
      simp [Function.update_same, Function.update_noteq hab]
    · by_cases hib : id = b.layer
      · subst hib
        simp [Function.update_same, Function.update_noteq hba]
      · simp [Function.update_noteq hia, Function.update_noteq hib]

theorem mirrorAll_mirrorStep (heap : LayerId → Layer) (l : List MovLayer) (a : MovLayer) :
    mirrorAll (mirrorStep heap a) l = mirrorStep (mirrorAll heap l) a := by
  induction l generalizing heap with
  | nil => rfl
  | cons m rest ih =>
    simp only [mirrorAll]
    rw [mirrorStep_comm heap a m, ih]

theorem mirrorStep_negNode (heap : LayerId → Layer) (m : MovLayer) :
    mirrorStep (mirrorStep heap m) (negNode m) = heap := by
  funext id
  unfold mirrorStep negNode
  by_cases hid : id = m.layer
  · subst hid
    simp only [Function.update_same, vec2Sub, sub_neg_eq_add, sub_add_cancel]
  · simp only [Function.update_noteq hid]

theorem mirrorAll_negNode (heap : LayerId → Layer) (l : List MovLayer) :
    mirrorAll (mirrorAll heap l) (l.map negNode) = heap := by
  induction l generalizing heap with
  | nil => rfl
  | cons m rest ih =>
    simp only [mirrorAll, List.map_cons]
    rw [← mirrorAll_mirrorStep, mirrorAll_mirrorStep (mirrorStep heap m) rest (negNode m),
      ← mirrorAll_mirrorStep, mirrorStep_negNode, ih]

theorem negNode_negNode (m : MovLayer) : negNode (negNode m) = m := by
  cases m
  simp [negNode]

theorem storedPos_other (w : World) (fence : Region) (n m : MovLayer)
    (h : m.layer ≠ n.layer) :
    storedPos (advanceLayer w fence n).1 fence m = storedPos w fence m := by
  have hf : ∀ a, fires fence (candidateBounds w m) (advanceLayer w fence n).1 a
      ↔ fires fence (candidateBounds w m) w a := fun a =>
    fires_congr fence _ _ w a (fun id => (advanceLayer_frame w fence n id).1)
  unfold storedPos
  simp only [candidateBounds_other w fence n m h, advanceLayer_heap_other w fence n m.layer h,
    hf]

theorem advanceLayer_node_other (w : World) (fence : Region) (n m : MovLayer)
    (h : m.layer ≠ n.layer) :
    (advanceLayer (advanceLayer w fence n).1 fence m).2 = (advanceLayer w fence m).2 := by
  have hf : ∀ a, fires fence (candidateBounds w m) (advanceLayer w fence n).1 a
      ↔ fires fence (candidateBounds w m) w a := fun a =>
    fires_congr fence _ _ w a (fun id => (advanceLayer_frame w fence n id).1)
  apply movLayer_eq_of_axes
  · rfl
  · rw [advanceLayer_velocity, advanceLayer_velocity, candidateBounds_other w fence n m h]
    simp only [hf]
  · rw [advanceLayer_velocity, advanceLayer_velocity, candidateBounds_other w fence n m h]
    simp only [hf]

theorem mlAdvance_distinct (w : World) (fence : Region) (l : List MovLayer)
    (hd : (l.map MovLayer.layer).Nodup) :
    (mlAdvance w l fence).2 = l.map (fun m => (advanceLayer w fence m).2) ∧
    ∀ m ∈ l, ((mlAdvance w l fence).1.heap m.layer).posNext = storedPos w fence m := by
  induction l generalizing w with
  | nil =>
    refine ⟨rfl, ?_⟩
    intro m hm
    simp at hm
  | cons n rest ih =>
    rw [List.map_cons, List.nodup_cons] at hd
    have hne : ∀ m ∈ rest, m.layer ≠ n.layer :=
      fun m hm e => hd.1 (e ▸ List.mem_map_of_mem _ hm)
    obtain ⟨h1, h2⟩ := ih (advanceLayer w fence n).1 hd.2
    simp only [mlAdvance, List.map_cons]
    refine ⟨?_, ?_⟩
    · rw [h1]
      congr 1
      apply List.map_congr_left
      intro m hm
      exact advanceLayer_node_other w fence n m (hne m hm)
    · intro m hm
      rcases List.mem_cons.mp hm with e | hin
      · subst e
        rw [mlAdvance_heap_other _ fence rest m.layer (fun k hk => hne k hk),
          advanceLayer_heap_same]
      · rw [h2 m hin, storedPos_other w fence n m (hne m hin)]

/-- C19. Period 2 under persistent contact, over exact integers.  When the paddle contact
holds, one call of `mlAdvance` negates the velocity of every node and moves the `posNext`
of its layer back by that velocity (`posNext - v` on both axes, node after node), and a
second call right after it, with no commit in between, gives back the velocities and the
whole memory, so every `posNext`, as they were before the first call.  More generally,
when the nodes point to pairwise distinct layers and the reflection condition of an axis
fires for a node in the first call and again in the second, the velocity of the node and
the `posNext` of its layer on that axis are `-v` and `p - v` after the first call and
back to `v` and `p` after the second. -/
theorem two_ticks_restore (w : World) (mls : List MovLayer) (fence : Region) :
    (paddleContact w →
      (mlAdvance w mls fence).2 = mls.map negNode ∧
      (mlAdvance w mls fence).1.heap = mirrorAll w.heap mls ∧
      (mlAdvance (mlAdvance w mls fence).1 (mlAdvance w mls fence).2 fence).2 = mls ∧
      (mlAdvance (mlAdvance w mls fence).1 (mlAdvance w mls fence).2 fence).1.heap
        = w.heap) ∧
    ((mls.map MovLayer.layer).Nodup →
      ∀ (i : Nat) (m : MovLayer) (a : Fin 2), mls[i]? = some m →
        fires fence (candidateBounds w m) w a →
        (∀ m1, (mlAdvance w mls fence).2[i]? = some m1 →
          fires fence (candidateBounds (mlAdvance w mls fence).1 m1)
            (mlAdvance w mls fence).1 a) →
        ∃ m1 m2 : MovLayer,
          (mlAdvance w mls fence).2[i]? = some m1 ∧
          (mlAdvance (mlAdvance w mls fence).1 (mlAdvance w mls fence).2 fence).2[i]?
            = some m2 ∧
          m1.velocity.axes a = - m.velocity.axes a ∧
          ((mlAdvance w mls fence).1.heap m.layer).posNext.axes a
            = (w.heap m.layer).posNext.axes a - m.velocity.axes a ∧
          m2.velocity.axes a = m.velocity.axes a ∧
          ((mlAdvance (mlAdvance w mls fence).1 (mlAdvance w mls fence).2 fence).1.heap
              m.layer).posNext.axes a
            = (w.heap m.layer).posNext.axes a) := by
  constructor
  · intro hc
    obtain ⟨h1, h2⟩ := mlAdvance_contact w fence mls hc
    obtain ⟨g1, g2⟩ := mlAdvance_contact (mlAdvance w mls fence).1 fence
      (mlAdvance w mls fence).2 ((mlAdvance_paddleContact w fence mls).mpr hc)
    refine ⟨h2, h1, ?_, ?_⟩
    · rw [g2, h2, List.map_map]
      conv_rhs => rw [← List.map_id mls]
      apply List.map_congr_left
      intro m _
      exact negNode_negNode m
    · rw [g1, h1, h2, mirrorAll_negNode]
  · intro hd i m a hm hf1 hf2
    have hmem : m ∈ mls := List.mem_iff_getElem?.mpr ⟨i, hm⟩
    obtain ⟨d1, d2⟩ := mlAdvance_distinct w fence mls hd
    have hd2 : ((mlAdvance w mls fence).2.map MovLayer.layer).Nodup := by
      rw [mlAdvance_layers]
      exact hd
    obtain ⟨e1, e2⟩ := mlAdvance_distinct (mlAdvance w mls fence).1 fence
      (mlAdvance w mls fence).2 hd2
    have k1 : (mlAdvance w mls fence).2[i]? = some (advanceLayer w fence m).2 := by
      rw [d1, List.getElem?_map, hm]
      rfl
    have k2 : (mlAdvance (mlAdvance w mls fence).1 (mlAdvance w mls fence).2 fence).2[i]?
        = some (advanceLayer (mlAdvance w mls fence).1 fence (advanceLayer w fence m).2).2 := by
      rw [e1, List.getElem?_map, k1]
      rfl
    have hf2a := hf2 _ k1
    have hmem1 : (advanceLayer w fence m).2 ∈ (mlAdvance w mls fence).2 :=
      List.mem_iff_getElem?.mpr ⟨i, k1⟩
    have v1 : (advanceLayer w fence m).2.velocity.axes a = - m.velocity.axes a := by
      rw [advanceLayer_velocity, if_pos hf1]
    have p1 : ((mlAdvance w mls fence).1.heap m.layer).posNext.axes a
        = (w.heap m.layer).posNext.axes a - m.velocity.axes a := by
      rw [d2 m hmem, storedPos_axes, if_pos hf1]
    refine ⟨_, _, k1, k2, v1, p1, ?_, ?_⟩
    · rw [advanceLayer_velocity, if_pos hf2a, v1, neg_neg]
    · have h := e2 _ hmem1
      rw [advanceLayer_layer] at h
      rw [h, storedPos_axes, if_pos hf2a, advanceLayer_layer, p1, v1]
      ring

/-- Witness of C19: the ball inside the paddle rectangle, ball and paddle in the list; two
ticks give back the list of nodes. -/
theorem two_ticks_restore_witness :
    (mlAdvance
        (mlAdvance (gameWorld ⟨13, 125⟩ ⟨13, 125⟩ ⟨15, 130⟩) [ballNode ⟨-3, 3⟩, paddleNode]
          programFence).1
        (mlAdvance (gameWorld ⟨13, 125⟩ ⟨13, 125⟩ ⟨15, 130⟩) [ballNode ⟨-3, 3⟩, paddleNode]
          programFence).2 programFence).2
      = [ballNode ⟨-3, 3⟩, paddleNode] :=
  ((two_ticks_restore (gameWorld ⟨13, 125⟩ ⟨13, 125⟩ ⟨15, 130⟩)
    [ballNode ⟨-3, 3⟩, paddleNode] programFence).1 (by decide)).2.2.1

/-! ## The ball stays inside the fence -/

theorem doCall_ballInside (g : Game) (c : Call) (half : Vec2) (h : BallInside g half) :
    BallInside (doCall g c) half := by
  obtain ⟨b, pd, hl, hb, hpd, hshape, h0, hm⟩ := h
  cases c with
  | movePaddle sw =>
    have hh : (movePaddle g.w sw).heap layer0 = g.w.heap layer0 := by
      rw [movePaddle_heap, Function.update_noteq (by decide)]
    refine ⟨b, pd, hl, hb, hpd, ?_, ?_, ?_⟩
    · show ∀ c, abShapeGetBounds ((movePaddle g.w sw).heap layer0).abShape c = _
      rw [hh]
      exact hshape
    · show insideFence g.fieldFence ((movePaddle g.w sw).heap layer0).abShape
        ((movePaddle g.w sw).heap layer0).posNext
      rw [hh]
      exact h0
    · show insideFence g.fieldFence ((movePaddle g.w sw).heap layer0).abShape
        (vec2Sub ((movePaddle g.w sw).heap layer0).posNext b.velocity)
      rw [hh]
      exact hm
  | mlAdvance =>
    have hd : ([b, pd].map MovLayer.layer).Nodup := by
      simp only [List.map_cons, List.map_nil, hb, hpd]
      decide
    obtain ⟨e2, e1⟩ := mlAdvance_distinct g.w g.fieldFence [b, pd] hd
    have hp := e1 b (List.mem_cons_self _ _)
    have hs := (mlAdvance_frame g.w g.fieldFence [b, pd] layer0).2.2.1
    have key := advanceLayer_inside g.w g.fieldFence b half (by rw [hb]; exact hshape)
      (by rw [hb]; exact h0) (by rw [hb]; exact hm)
    rw [hb] at key hp
    refine ⟨(advanceLayer g.w g.fieldFence b).2, (advanceLayer g.w g.fieldFence pd).2,
      ?_, hb, hpd, ?_, ?_, ?_⟩
    · show (mlAdvance g.w g.movLayers g.fieldFence).2 = _
      rw [hl, e2]
      rfl
    · show ∀ c, abShapeGetBounds
        ((mlAdvance g.w g.movLayers g.fieldFence).1.heap layer0).abShape c = _
      rw [hl, hs]
      exact hshape
    · show insideFence g.fieldFence
        ((mlAdvance g.w g.movLayers g.fieldFence).1.heap layer0).abShape
        ((mlAdvance g.w g.movLayers g.fieldFence).1.heap layer0).posNext
      rw [hl, hs, hp]
      exact key.1
    · show insideFence g.fieldFence
        ((mlAdvance g.w g.movLayers g.fieldFence).1.heap layer0).abShape
        (vec2Sub ((mlAdvance g.w g.movLayers g.fieldFence).1.heap layer0).posNext
          (advanceLayer g.w g.fieldFence b).2.velocity)
      rw [hl, hs, hp]
      exact key.2

theorem doCalls_ballInside (g : Game) (calls : List Call) (half : Vec2)
    (h : BallInside g half) : BallInside (doCalls g calls) half := by
  induction calls generalizing g with
  | nil => exact h
  | cons c rest ih => exact ih (doCall g c) (doCall_ballInside g c half h)

theorem programGame_ballInside : BallInside programGame ⟨3, 3⟩ := by
  refine ⟨ballNode ⟨3, 3⟩, paddleNode, rfl, rfl, rfl, fun _ => rfl, ?_, ?_⟩
  · intro a
    fin_cases a <;> decide
  · intro a
    fin_cases a <;> decide

/-- In every state that the calls of `movePaddle` and `mlAdvance` reach from the start of
the program, in any order and number, the bounds of the ball lie inside the fence at its
`posNext` and at `posNext` minus its velocity: the ball starts every tick on the legal
side of all four fence edges. -/
theorem program_ballInside (calls : List Call) :
    BallInside (doCalls programGame calls) ⟨3, 3⟩ :=
  doCalls_ballInside programGame calls ⟨3, 3⟩ programGame_ballInside

end HandBall
